import Mathlib

/-!
Verification of the coding-harness core against its specification.

The Python sources under `src/` are shallowly embedded as executable Lean
definitions: pure functions become Lean functions, file-system and process
state becomes explicit state passing, and library calls at the I/O boundary
(SHA-256 digests, random bytes, path resolution, JSON line framing) become
explicit parameters.  Strings are treated as sequences of characters; the
ASCII fragment relevant to the repository is modelled exactly.
-/

set_option maxRecDepth 4096

namespace Harness

/-! ### Character and string helpers (Python semantics) -/

/-- The single-quote character (ASCII 39). -/
def squoteChar : Char := Char.ofNat 39

/-- The backslash character (ASCII 92). -/
def bslashChar : Char := Char.ofNat 92

/-- The double-quote character (ASCII 34). -/
def dquoteChar : Char := Char.ofNat 34

/-- The backtick character (ASCII 96). -/
def btickChar : Char := Char.ofNat 96

/-- Whitespace for Python `str.strip()` / `str.split()` (ASCII fragment):
space, tab, newline, carriage return, vertical tab, form feed. -/
def pyWs (c : Char) : Bool :=
  c = ' ' || c = '\t' || c = '\n' || c = '\r' || c = Char.ofNat 11 || c = Char.ofNat 12

/-- Whitespace matched by the regex class backslash-s (ASCII fragment). -/
def reWs (c : Char) : Bool := pyWs c

/-- Whitespace recognised by `shlex` (its `whitespace` attribute is
exactly space, tab, carriage return, newline). -/
def shlexWs (c : Char) : Bool :=
  c = ' ' || c = '\t' || c = '\r' || c = '\n'

/-- Python `str.strip()` on the ASCII whitespace fragment. -/
def pyStrip (s : String) : String :=
  ⟨(s.toList.dropWhile pyWs).reverse.dropWhile pyWs |>.reverse⟩

/-- Python `str.strip("-")`. -/
def pyStripHyphen (s : String) : String :=
  ⟨(s.toList.dropWhile (· = '-')).reverse.dropWhile (· = '-') |>.reverse⟩

/-- Python `str.split()` with no argument: split on runs of whitespace,
discarding empty fields. -/
def pySplitWs (s : String) : List String :=
  ((s.toList.splitOnP pyWs).map (fun l => (⟨l⟩ : String))).filter (· ≠ "")

/-- Does `hay` start with `needle`? -/
def listStartsWith : List Char → List Char → Bool
  | [], _ => true
  | _ :: _, [] => false
  | a :: as, b :: bs => a = b && listStartsWith as bs

/-- Does `hay` contain `needle` as a contiguous sublist? -/
def listContainsSub (needle : List Char) : List Char → Bool
  | [] => needle.isEmpty
  | c :: rest => listStartsWith needle (c :: rest) || listContainsSub needle rest

/-- Substring containment (`needle in haystack` on Python strings). -/
def strContainsSub (haystack needle : String) : Bool :=
  listContainsSub needle.toList haystack.toList

/-- `str.startswith` via character lists (kernel-reducible). -/
def strStartsWith (s pre : String) : Bool :=
  listStartsWith pre.toList s.toList

/-- Single-character containment (`c in s`). -/
def strContainsChar (s : String) (c : Char) : Bool :=
  s.toList.contains c

/-- Drop the first `n` characters. -/
def strDrop (s : String) (n : Nat) : String :=
  ⟨s.toList.drop n⟩

/-- Structural split of a character list on a separator character
(`str.split(sep)` semantics: `n+1` fields for `n` separators). -/
def splitOnChar (sep : Char) : List Char → List (List Char)
  | [] => [[]]
  | c :: rest =>
    let r := splitOnChar sep rest
    if c = sep then [] :: r
    else
      match r with
      | [] => [[c]]
      | h :: t => (c :: h) :: t

/-- Single-character `str.replace` (used for one-character patterns). -/
def pyReplaceChar (old new : Char) (s : String) : String :=
  ⟨s.toList.map (fun c => if c = old then new else c)⟩

/-- Python `str.lower()` on the ASCII fragment. -/
def pyLowerChar (c : Char) : Char :=
  if 'A' ≤ c && c ≤ 'Z' then Char.ofNat (c.toNat + 32) else c

/-- Python `str.lower()` applied to each character. -/
def pyLower (s : String) : String := ⟨s.toList.map pyLowerChar⟩

/-- ASCII lowercase letter test. -/
def isLowerAZ (c : Char) : Bool := 'a' ≤ c && c ≤ 'z'

/-- ASCII digit test. -/
def isDigit09 (c : Char) : Bool := '0' ≤ c && c ≤ '9'

/-! ### `common/utils.py`: `spec_filename_to_slug` -/

/-- The file name of a path: the part after the final slash
(`PurePath.name`). -/
def pathName (p : String) : String :=
  match (splitOnChar '/' p.toList).getLast? with
  | some n => (⟨n⟩ : String)
  | none => ""

/-- `PurePath.stem`: the file name with its final extension removed.  The
suffix is dropped only when the last dot sits strictly inside the name
(so `".txt"` and `"foo."` keep their dots, `"a.b.c"` becomes `"a.b"`). -/
def pathStem (p : String) : String :=
  let n := pathName p
  let cs := n.toList
  match (cs.reverse.takeWhile (· ≠ '.')).length with
  | len =>
    let i := cs.length - 1 - len
    if cs.contains '.' && 0 < i && i < cs.length - 1 then ⟨cs.take i⟩ else n

/-- Collapse runs of hyphens to a single hyphen
(`re.sub("-+", "-", s)`): a hyphen immediately followed by another
hyphen is dropped, so each run keeps exactly one. -/
def collapseHyphens : List Char → List Char
  | [] => []
  | [c] => [c]
  | c :: d :: rest =>
    if c = '-' && d = '-' then collapseHyphens (d :: rest)
    else c :: collapseHyphens (d :: rest)

/-- The replacement step `slug.replace(" ", "-").replace("_", "-")`. -/
def slugRepl (c : Char) : Char := if c = ' ' || c = '_' then '-' else c

/-- The deletion step `re.sub(r"[^a-z0-9-]", "", slug)`: keep exactly
the characters in `[a-z0-9-]`. -/
def slugKeep (c : Char) : Bool := isLowerAZ c || isDigit09 c || c = '-'

/-- `spec_filename_to_slug` from `src/common/utils.py`: take the stem,
lowercase it, turn spaces and underscores into hyphens, delete every
character outside `[a-z0-9-]`, collapse hyphen runs, trim hyphens, and
fall back to `"default"` when empty. -/
def spec_filename_to_slug (spec_file : String) : String :=
  let name := pathStem spec_file
  let slug := ((pyLower name).toList.map slugRepl).filter slugKeep
  let slug := collapseHyphens slug
  let slug := pyStripHyphen ⟨slug⟩
  if slug = "" then "default" else slug

/-- The slug transformation exactly as claim C6 words it: strip
directories and extension, lowercase, replace every maximal run of
characters outside `[a-z0-9]` by a single hyphen, trim hyphens, and
return `"default"` when empty.  Defined for comparison with the code. -/
def slugClaimC6 (spec_file : String) : String :=
  let name := pathStem spec_file
  let lowered := (pyLower name).toList
  let slug := pyStripHyphen ⟨hyphenateRuns lowered⟩
  if slug = "" then "default" else slug
where
  alnum (c : Char) : Bool := isLowerAZ c || isDigit09 c
  /-- Replace every maximal run of non-alphanumeric characters by one hyphen.
  A non-alphanumeric character is emitted as a hyphen only at the end of its
  run (when followed by an alphanumeric character or the end of input). -/
  hyphenateRuns : List Char → List Char
    | [] => []
    | [c] => if alnum c then [c] else ['-']
    | c :: d :: rest =>
      if alnum c then c :: hyphenateRuns (d :: rest)
      else if alnum d then '-' :: hyphenateRuns (d :: rest)
      else hyphenateRuns (d :: rest)

/-- Single-pass per-character description of what the code actually does:
uppercase letters are lowercased; lowercase letters, digits and hyphens
are kept; spaces and underscores become hyphens; everything else is
deleted.  Used to state the amended claim C6. -/
def slugClassifyChar (c : Char) : Option Char :=
  if 'A' ≤ c && c ≤ 'Z' then some (Char.ofNat (c.toNat + 32))
  else if ('a' ≤ c && c ≤ 'z') || ('0' ≤ c && c ≤ '9') || c = '-' then some c
  else if c = ' ' || c = '_' then some '-'
  else none

/-- The amended slug specification: classify each character of the
lowered stem in a single pass, then collapse hyphen runs, trim hyphens,
and default when empty. -/
def slugAmendedSpec (spec_file : String) : String :=
  let name := pathStem spec_file
  let slug := pyStripHyphen ⟨collapseHyphens (name.toList.filterMap slugClassifyChar)⟩
  if slug = "" then "default" else slug

/-! ### `shlex.split` (POSIX mode, whitespace split)

State machine translation of CPython's `shlex` in POSIX mode as used by
`_safe_shlex_split` in `src/agent/core/hooks/security.py`: single quotes
are literal runs, double quotes allow backslash escapes of `"` and `\`
only (other escaped characters keep the backslash), a backslash outside
quotes makes the next character literal, an unterminated quote raises
"No closing quotation" and a trailing backslash raises "No escaped
character".  A quoted empty string yields an empty token. -/

/-- Lexer state: between/inside a plain word (with a token-in-progress
flag), inside single or double quotes, or just after a backslash. -/
inductive ShState where
  | normal (inTok : Bool)
  | inSingle
  | inDouble
  | escNormal
  | escDouble
deriving DecidableEq

/-- One-character-at-a-time `shlex` scanner. -/
def shlexAux : ShState → List Char → List Char → List String → Except String (List String)
  | .normal inTok, [], cur, acc =>
    .ok (acc ++ if inTok then [(⟨cur⟩ : String)] else [])
  | .normal inTok, c :: rest, cur, acc =>
    if shlexWs c then
      if inTok then shlexAux (.normal false) rest [] (acc ++ [(⟨cur⟩ : String)])
      else shlexAux (.normal false) rest [] acc
    else if c = squoteChar then shlexAux .inSingle rest cur acc
    else if c = dquoteChar then shlexAux .inDouble rest cur acc
    else if c = bslashChar then shlexAux .escNormal rest cur acc
    else shlexAux (.normal true) rest (cur ++ [c]) acc
  | .inSingle, [], _, _ => .error "No closing quotation"
  | .inSingle, c :: rest, cur, acc =>
    if c = squoteChar then shlexAux (.normal true) rest cur acc
    else shlexAux .inSingle rest (cur ++ [c]) acc
  | .inDouble, [], _, _ => .error "No closing quotation"
  | .inDouble, c :: rest, cur, acc =>
    if c = dquoteChar then shlexAux (.normal true) rest cur acc
    else if c = bslashChar then shlexAux .escDouble rest cur acc
    else shlexAux .inDouble rest (cur ++ [c]) acc
  | .escNormal, [], _, _ => .error "No escaped character"
  | .escNormal, c :: rest, cur, acc => shlexAux (.normal true) rest (cur ++ [c]) acc
  | .escDouble, [], _, _ => .error "No escaped character"
  | .escDouble, c :: rest, cur, acc =>
    if c = dquoteChar || c = bslashChar then shlexAux .inDouble rest (cur ++ [c]) acc
    else shlexAux .inDouble rest (cur ++ [bslashChar, c]) acc

/-- `shlex.split(s)` with the two `ValueError` messages made explicit. -/
def shlexSplitE (s : String) : Except String (List String) :=
  shlexAux (.normal false) s.toList [] []

/-- `_safe_shlex_split`: `shlex.split` with failure mapped to `none`. -/
def safeShlexSplit (s : String) : Option (List String) :=
  (shlexSplitE s).toOption

/-! ### The two regex splits of `security.py`

`_SEMICOLON_SPLIT_PATTERN` is `(?<!["\x27])\s*;\s*(?!["\x27])`; the
split scans left to right, and the trailing `\s*` backs off one
character when the greedy run would put a quote right after the match
(the look-ahead then sees whitespace).  The `&&`/`||` split is
`\s*(?:&&|\|\|)\s*` with no look-arounds. -/

/-- Is `c` a quote character (for the look-behind and look-ahead)? -/
def isQuoteChar (c : Char) : Bool := c = dquoteChar || c = squoteChar

/-- Attempt to match the semicolon pattern at the current position.  The
look-behind receives the character just before the position; the result
is the number of characters consumed. -/
def semiMatchLen (prev : Option Char) (cs : List Char) : Option Nat :=
  match prev with
  | some p => if isQuoteChar p then none else semiMatchCore cs
  | none => semiMatchCore cs
where
  semiMatchCore (cs : List Char) : Option Nat :=
    let k := (cs.takeWhile reWs).length
    match cs.drop k with
    | c :: rest2 =>
      if c = ';' then
        let j := (rest2.takeWhile reWs).length
        match rest2.drop j with
        | [] => some (k + 1 + j)
        | d :: _ =>
          if isQuoteChar d then (if 0 < j then some (k + 1 + (j - 1)) else none)
          else some (k + 1 + j)
      else none
    | [] => none

/-- Left-to-right scan of `re.split` for the semicolon pattern,
fuel-bounded (the fuel is always at least the remaining length plus
one, and every step consumes at least one character). -/
def semiSplitGo : Nat → Option Char → List Char → List Char → List String → List String
  | 0, _, cs, cur, acc => acc ++ [(⟨cur ++ cs⟩ : String)]
  | fuel + 1, prev, cs, cur, acc =>
    match cs with
    | [] => acc ++ [(⟨cur⟩ : String)]
    | c :: rest =>
      match semiMatchLen prev cs with
      | some len =>
        semiSplitGo fuel ((cs.take len).getLast?) (cs.drop len) [] (acc ++ [(⟨cur⟩ : String)])
      | none => semiSplitGo fuel (some c) rest (cur ++ [c]) acc

/-- `re.split` of `_SEMICOLON_SPLIT_PATTERN`. -/
def semiSplit (s : String) : List String :=
  semiSplitGo (s.toList.length + 1) none s.toList [] []

/-- Attempt to match `\s*(?:&&|\|\|)\s*` at the current position. -/
def ampMatchLen (cs : List Char) : Option Nat :=
  let k := (cs.takeWhile reWs).length
  match cs.drop k with
  | a :: b :: rest2 =>
    if (a = '&' && b = '&') || (a = '|' && b = '|') then
      some (k + 2 + (rest2.takeWhile reWs).length)
    else none
  | _ => none

/-- Left-to-right scan of `re.split` for the `&&`/`||` pattern. -/
def ampSplitGo : Nat → List Char → List Char → List String → List String
  | 0, cs, cur, acc => acc ++ [(⟨cur ++ cs⟩ : String)]
  | fuel + 1, cs, cur, acc =>
    match cs with
    | [] => acc ++ [(⟨cur⟩ : String)]
    | c :: rest =>
      match ampMatchLen cs with
      | some len => ampSplitGo fuel (cs.drop len) [] (acc ++ [(⟨cur⟩ : String)])
      | none => ampSplitGo fuel rest (cur ++ [c]) acc

/-- `re.split` of `\s*(?:&&|\|\|)\s*`. -/
def ampSplit (s : String) : List String :=
  ampSplitGo (s.toList.length + 1) s.toList [] []

/-! ### `security.py`: command extraction and the hook -/

/-- The frozen allow-list `ALLOWED_COMMANDS`. -/
def ALLOWED_COMMANDS : List String :=
  ["ls", "cat", "head", "tail", "wc", "grep", "cp", "mkdir", "chmod", "pwd",
   "npm", "node", "git", "ps", "lsof", "sleep", "pkill", "init.sh", "start.sh",
   "cd", "gh", "echo"]

/-- `COMMANDS_NEEDING_EXTRA_VALIDATION`. -/
def COMMANDS_NEEDING_EXTRA_VALIDATION : List String :=
  ["pkill", "chmod", "init.sh", "start.sh"]

/-- `_SHELL_OPERATORS`. -/
def SHELL_OPERATORS : List String := ["|", "||", "&&", "&"]

/-- `_SHELL_KEYWORDS` (the braces are the literal one-character words). -/
def SHELL_KEYWORDS : List String :=
  ["if", "then", "else", "elif", "fi", "for", "while", "until", "do", "done",
   "case", "esac", "in", "!", "\x7b", "\x7d"]

/-- `os.path.basename`: the part after the final slash. -/
def osBasename (t : String) : String :=
  match (splitOnChar '/' t.toList).getLast? with
  | some x => (⟨x⟩ : String)
  | none => t

/-- The token scan of `_extract_commands` within one segment: operators
re-arm command expectation, keywords, flags and `KEY=value` assignments
are skipped, and the next remaining token (when expected) contributes
its base name as a command. -/
def extractFromTokens : List String → Bool → List String
  | [], _ => []
  | t :: ts, expect =>
    if t ∈ SHELL_OPERATORS then extractFromTokens ts true
    else if t ∈ SHELL_KEYWORDS then extractFromTokens ts expect
    else if strStartsWith t "-" then extractFromTokens ts expect
    else if strContainsChar t '=' && !strStartsWith t "=" then extractFromTokens ts expect
    else if expect then osBasename t :: extractFromTokens ts false
    else extractFromTokens ts expect

/-- Strip each part and drop the empty ones (the common post-processing
of both segment producers). -/
def stripSegments (parts : List String) : List String :=
  (parts.map pyStrip).filter (· ≠ "")

/-- `_extract_commands` over the already-split segments; `none` when any
segment fails to parse (Python then returns `[]` for the whole call). -/
def extractCommandsAux : List String → Option (List String)
  | [] => some []
  | seg :: rest =>
    match safeShlexSplit seg with
    | none => none
    | some toks => (extractCommandsAux rest).map (fun cs => extractFromTokens toks true ++ cs)

/-- `_extract_commands`: split on unquoted semicolons, strip, parse each
segment with `shlex`, and collect command base names; any parse failure
yields the empty list (fail-safe). -/
def extractCommands (s : String) : List String :=
  (extractCommandsAux (stripSegments (semiSplit s))).getD []

/-- The POSIX-mode shell parse the filter performs on a command string:
the `shlex` tokens of every stripped semicolon segment, concatenated
(segments the lexer rejects contribute nothing; when the filter allows
a command, every segment parses). -/
def shellParseTokens (s : String) : List String :=
  ((stripSegments (semiSplit s)).map (fun seg => (safeShlexSplit seg).getD [])).flatten

/-- `_split_command_segments`: split on `&&`/`||`, then on unquoted
semicolons, strip, drop empties. -/
def splitCommandSegments (s : String) : List String :=
  stripSegments (((ampSplit s).map semiSplit).flatten)

/-- `_get_command_for_validation`: the first segment whose extracted
commands contain `cmd`, or `""`. -/
def getCommandForValidation (cmd : String) (segments : List String) : String :=
  match segments.find? (fun seg => cmd ∈ extractCommands seg) with
  | some seg => seg
  | none => ""

/-- `allowed_process_names` in `_validate_pkill_command`. -/
def allowedProcessNames : List String := ["node", "npm", "npx", "vite", "next"]

/-- `_validate_pkill_command`.  Returns `none` for the one path where
the Python code raises (`target.split()[0]` on a target that contains a
space but no non-whitespace word, an `IndexError`). -/
def validatePkill (s : String) : Option (Bool × String) :=
  match shlexSplitE s with
  | .error e => some (false, "Could not parse pkill command: " ++ e)
  | .ok [] => some (false, "Empty pkill command")
  | .ok (_ :: rest) =>
    let args := rest.filter (fun t => !strStartsWith t "-")
    match args.getLast? with
    | none => some (false, "pkill requires a process name")
    | some target =>
      let finalTarget := if strContainsChar target ' ' then (pySplitWs target).head? else some target
      match finalTarget with
      | none => none
      | some t =>
        if t ∈ allowedProcessNames then some (true, "")
        else some (false, "pkill only allowed for dev processes: " ++
          "\x7b\x27node\x27, \x27npm\x27, \x27npx\x27, \x27vite\x27, \x27next\x27\x7d")

/-- The pkill rule exactly as claim C3 words it: the target is the
FIRST non-flag, non-option token (after the command word); a spaced
target contributes its first whitespace-separated word; allowed iff the
final target is an allowed process name.  Defined for comparison with
the code. -/
def pkillClaimRuleC3 (s : String) : Option Bool :=
  match shlexSplitE s with
  | .error _ => some false
  | .ok [] => some false
  | .ok (_ :: rest) =>
    match (rest.filter (fun t => !strStartsWith t "-")).head? with
    | none => some false
    | some target =>
      match (if strContainsChar target ' ' then (pySplitWs target).head? else some target) with
      | none => none
      | some t => some (decide (t ∈ allowedProcessNames))

/-- The amended pkill rule: identical to the claim's rule except that
the target is the LAST non-flag token.  `none` marks the raising path. -/
def pkillAmendedRuleC3 (s : String) : Option Bool :=
  match shlexSplitE s with
  | .error _ => some false
  | .ok [] => some false
  | .ok (_ :: rest) =>
    match (rest.filter (fun t => !strStartsWith t "-")).getLast? with
    | none => some false
    | some target =>
      match (if strContainsChar target ' ' then (pySplitWs target).head? else some target) with
      | none => none
      | some t => some (decide (t ∈ allowedProcessNames))

/-- Does a chmod mode match `^[ugoa]*\+x$`? -/
def chmodModeOk (m : String) : Bool :=
  let cs := m.toList
  let pre := cs.takeWhile (fun c => c = 'u' || c = 'g' || c = 'o' || c = 'a')
  cs.drop pre.length = ['+', 'x']

/-- The mode/files scan of `_validate_chmod_command`; `none` when a flag
token is seen. -/
def chmodCollect (toks : List String) : Option (Option String × List String) :=
  toks.foldl
    (fun acc t =>
      match acc with
      | none => none
      | some (mode, files) =>
        if strStartsWith t "-" then none
        else
          match mode with
          | none => some (some t, files)
          | some m => some (some m, files ++ [t]))
    (some (none, []))

/-- `_validate_chmod_command`. -/
def validateChmod (s : String) : Bool × String :=
  match shlexSplitE s with
  | .error e => (false, "Could not parse chmod command: " ++ e)
  | .ok [] => (false, "Not a chmod command")
  | .ok (t0 :: rest) =>
    if t0 ≠ "chmod" then (false, "Not a chmod command")
    else
      match chmodCollect rest with
      | none => (false, "chmod flags are not allowed")
      | some (none, _) => (false, "chmod requires a mode")
      | some (some m, files) =>
        if files = [] then (false, "chmod requires at least one file")
        else if !chmodModeOk m then (false, "chmod only allowed with +x mode, got: " ++ m)
        else (true, "")

/-- `dangerous_chars` of `_validate_script_arguments`. -/
def dangerousChars : List Char :=
  [';', '&', '|', btickChar, '$', '(', ')', '<', '>', '\n', '\r', bslashChar]

/-- The per-argument loop of `_validate_script_arguments`. -/
def scriptArgsLoop : List String → Bool × String
  | [] => (true, "")
  | arg :: rest =>
    if arg.length > 1000 then
      (false, "Script argument exceeds maximum length (1000 chars): " ++
        (⟨arg.toList.take 50⟩ : String) ++ "...")
    else
      match dangerousChars.find? (fun c => strContainsChar arg c) with
      | some c => (false, "Script argument contains dangerous character \x27" ++
          String.mk [c] ++ "\x27: " ++ arg)
      | none =>
        if strContainsSub arg "../" || strContainsSub arg "/.." then
          (false, "Script argument contains path traversal: " ++ arg)
        else if (arg.toList.count squoteChar) % 2 ≠ 0 || (arg.toList.count dquoteChar) % 2 ≠ 0 then
          (false, "Script argument contains unbalanced quotes: " ++ arg)
        else scriptArgsLoop rest

/-- `_validate_script_arguments`: argument-count cap, then the loop. -/
def validateScriptArguments (toks : List String) : Bool × String :=
  if toks.length - 1 > 50 then
    (false, "Script has too many arguments (max 50, got " ++ toString (toks.length - 1) ++ ")")
  else scriptArgsLoop toks.tail

/-- `_validate_script_path`, with the file-system resolution of
`_is_path_safe` (symlink resolution against the current working
directory, including its exception paths) abstracted into `pathSafe`. -/
def validateScriptPath (pathSafe : String → Bool) (s scriptName : String)
    (allowedScripts : List String) : Bool × String :=
  match shlexSplitE s with
  | .error e => (false, "Invalid " ++ scriptName ++ " command syntax: " ++ e)
  | .ok [] => (false, "Empty " ++ scriptName ++ " command")
  | .ok (scriptToken :: rest) =>
    let scriptBase := if strStartsWith scriptToken "./" then strDrop scriptToken 2 else scriptToken
    if !allowedScripts.any (fun a => scriptBase = a) then
      (false, "Script must be one of: " ++ String.intercalate ", " allowedScripts)
    else if scriptToken ≠ "./" ++ scriptBase then
      (false, "Only ./" ++ scriptBase ++ " is allowed, got: " ++ scriptToken)
    else if !pathSafe scriptToken then
      (false, "Script path resolves outside current directory: " ++ scriptToken)
    else validateScriptArguments (scriptToken :: rest)

/-- `_validate_init_script`. -/
def validateInitScript (pathSafe : String → Bool) (s : String) : Bool × String :=
  validateScriptPath pathSafe s "init.sh" ["init.sh"]

/-- `allowed_subcommands` of `_validate_start_script`. -/
def startAllowedSubcommands : List String :=
  ["dev", "prod", "restart-dev", "stop", "check", "typecheck", "lint",
   "lint-fix", "build", "clean", "install", "setup", "test"]

/-- `_validate_start_script`. -/
def validateStartScript (pathSafe : String → Bool) (s : String) : Bool × String :=
  match validateScriptPath pathSafe s "start.sh" ["start.sh"] with
  | (false, msg) => (false, msg)
  | (true, _) =>
    match shlexSplitE s with
    | .error e => (false, "Could not parse start script command: " ++ e)
    | .ok toks =>
      match toks.drop 1 with
      | [] => (true, "")
      | sub :: _ =>
        if sub ∉ startAllowedSubcommands then
          (false, "start.sh subcommand \x27" ++ sub ++ "\x27 not allowed")
        else (true, "")

/-- Result of the pre-tool-use hook: the empty dict (allow), a deny dict
with a reason, or an uncaught Python exception. -/
inductive HookOutput where
  | allow
  | deny (reason : String)
  | raised
deriving DecidableEq

/-- The extra-validation dispatch of `_bash_security_hook` for one
sensitive command and its segment. -/
def runExtraValidation (pathSafe : String → Bool) (cmd seg : String) : Option (Bool × String) :=
  if cmd = "pkill" then validatePkill seg
  else if cmd = "chmod" then some (validateChmod seg)
  else if cmd = "init.sh" then some (validateInitScript pathSafe seg)
  else some (validateStartScript pathSafe seg)

/-- The allow-list and extra-validation loop of `_bash_security_hook`. -/
def validateCommands (pathSafe : String → Bool) (segments : List String) :
    List String → HookOutput
  | [] => .allow
  | cmd :: rest =>
    if cmd ∉ ALLOWED_COMMANDS then
      .deny ("Command \x27" ++ cmd ++ "\x27 is not in the allowed commands list")
    else if cmd ∈ COMMANDS_NEEDING_EXTRA_VALIDATION then
      let seg := getCommandForValidation cmd segments
      if seg = "" then
        .deny ("Failed to locate command segment for validation: " ++ cmd)
      else
        match runExtraValidation pathSafe cmd seg with
        | none => .raised
        | some (true, _) => validateCommands pathSafe segments rest
        | some (false, reason) => .deny reason
    else validateCommands pathSafe segments rest

/-- `_bash_security_hook` from `src/agent/core/hooks/security.py`.  The
tool name and the command string are the parts of `input_data` the hook
reads; `pathSafe` abstracts the file-system resolution used by the
script validators. -/
def bashSecurityHook (pathSafe : String → Bool) (toolName command : String) : HookOutput :=
  if toolName ≠ "Bash" then .allow
  else if command = "" then .allow
  else if strContainsChar command (Char.ofNat 0) || command.length > 10000 then
    .deny "Command contains invalid characters or exceeds length limit"
  else if strContainsSub command "$(" || strContainsSub command "\x60" ||
      strContainsSub command "<(" then
    .deny "Command substitutions and subshells are not allowed"
  else
    let commands := extractCommands command
    if commands = [] then
      .deny ("Could not parse command for security validation: " ++ command)
    else validateCommands pathSafe (splitCommandSegments command) commands

/-! ### `common/utils.py`: base62 run hash -/

/-- `BASE62_ALPHABET`. -/
def BASE62_ALPHABET : List Char :=
  "0123456789ABCDEFGHIJKLMNOPQRSTUVWXYZabcdefghijklmnopqrstuvwxyz".toList

/-- Fuel-bounded little-endian base-62 digit loop (the quotient shrinks
every step, so fuel equal to the number itself always suffices). -/
def natToBase62DigitsGo : Nat → Nat → List Char
  | 0, _ => []
  | _ + 1, 0 => []
  | fuel + 1, n + 1 =>
    BASE62_ALPHABET.getD ((n + 1) % 62) '0' :: natToBase62DigitsGo fuel ((n + 1) / 62)

/-- Little-endian base-62 digit characters of a positive number (the
`while num > 0` loop of `_int_to_base62`). -/
def natToBase62Digits (n : Nat) : List Char :=
  natToBase62DigitsGo n n

/-- `_int_to_base62`: zero maps to a run of `'0'`; otherwise the digit
list is padded with `'0'` (on the most-significant side of the
little-endian list), the last `length` digits are kept and reversed. -/
def intToBase62 (num length : Nat) : String :=
  if num = 0 then ⟨List.replicate length '0'⟩
  else
    let result := natToBase62Digits num
    let result := result ++ List.replicate (length - result.length) '0'
    ⟨(result.drop (result.length - length)).reverse⟩

/-- Big-endian integer of a byte list (`int.from_bytes(b, "big")`). -/
def bytesToBE (bs : List Nat) : Nat :=
  bs.foldl (fun acc b => acc * 256 + b % 256) 0

/-- `generate_spec_hash` after the file read: the first 4 bytes of the
SHA-256 digest of the spec content (`digest4`, supplied by the caller
since the digest itself is a library call) are concatenated with 4
random bytes, read as a big-endian integer and rendered as 8 base62
characters. -/
def generateSpecHash (digest4 random4 : List Nat) : String :=
  intToBase62 (bytesToBE (digest4.take 4 ++ random4)) 8

/-! ### File-system model and `initialize_agent_workspace`

The on-disk state is an association list from path to file contents;
`fsSet` overwrites every binding of the path in place (appending when
absent), so the list order is stable across repeated writes and state
equality is decidable. -/

/-- On-disk state: path to contents. -/
abbrev FS := List (String × String)

/-- Read a file. -/
def fsGet (fs : FS) (p : String) : Option String :=
  (fs.find? (fun kv => kv.1 = p)).map (fun kv => kv.2)

/-- Write a file (overwrite in place, append when new). -/
def fsSet (fs : FS) (p v : String) : FS :=
  if fs.any (fun kv => kv.1 = p) then
    fs.map (fun kv => if kv.1 = p then (p, v) else kv)
  else fs ++ [(p, v)]

/-- JSON string escaping as `json.dumps` performs it for the characters
that can occur here. -/
def jsonEscapeChar (c : Char) : List Char :=
  if c = dquoteChar || c = bslashChar then [bslashChar, c]
  else if c = '\n' then [bslashChar, 'n']
  else if c = '\t' then [bslashChar, 't']
  else if c = '\r' then [bslashChar, 'r']
  else [c]

/-- A JSON string literal. -/
def jsonStr (s : String) : String :=
  "\"" ++ (⟨(s.toList.map jsonEscapeChar).flatten⟩ : String) ++ "\""

/-- A JSON boolean literal. -/
def jsonBool (b : Bool) : String := if b then "true" else "false"

/-- Arguments of `initialize_agent_workspace` (paths as strings). -/
structure InitArgs where
  project_dir : String
  spec_source : String
  target_branch : String
  file_only_mode : Bool := false
  skip_mr_creation : Bool := false
  skip_puppeteer : Bool := false
  skip_test_suite : Bool := false
  skip_regression_testing : Bool := false
  spec_hash : Option String := none
  spec_slug : Option String := none
deriving DecidableEq

/-- The exact text `json.dumps(info, indent=2)` produces for the
workspace-info dict built by `initialize_agent_workspace` (keys in
insertion order). -/
def workspaceInfoJson (slug hash : String) (a : InitArgs) : String :=
  "\x7b\n  \"spec_slug\": " ++ jsonStr slug ++
  ",\n  \"spec_hash\": " ++ jsonStr hash ++
  ",\n  \"target_branch\": " ++ jsonStr a.target_branch ++
  ",\n  \"feature_branch\": " ++ jsonStr ("feature/" ++ slug ++ "-" ++ hash) ++
  ",\n  \"spec_file\": " ++ jsonStr "app_spec.txt" ++
  ",\n  \"initialized\": true" ++
  ",\n  \"auto_accept\": false" ++
  ",\n  \"file_only_mode\": " ++ jsonBool a.file_only_mode ++
  ",\n  \"skip_mr_creation\": " ++ jsonBool a.skip_mr_creation ++
  ",\n  \"skip_puppeteer\": " ++ jsonBool a.skip_puppeteer ++
  ",\n  \"skip_test_suite\": " ++ jsonBool a.skip_test_suite ++
  ",\n  \"skip_regression_testing\": " ++ jsonBool a.skip_regression_testing ++
  "\n\x7d"

/-- `initialize_agent_workspace` from `src/agent/prompts/__init__.py`.
`sha4` supplies the first four SHA-256 digest bytes of a content string
and `random4` the four fresh random bytes drawn by `secrets.token_bytes`
when the hash must be generated.  `none` is the error path: the spec
source cannot be read (both `generate_spec_hash` and `shutil.copy`
raise then).  Directory creation has no observable effect in this model
beyond the files written. -/
def initialize_agent_workspace (sha4 : String → List Nat) (random4 : List Nat)
    (fs : FS) (a : InitArgs) : Option (FS × String × String × String) :=
  match fsGet fs a.spec_source with
  | none => none
  | some content =>
    let slug := match a.spec_slug with
      | some s => s
      | none => spec_filename_to_slug a.spec_source
    let hash := match a.spec_hash with
      | some h => h
      | none => generateSpecHash (sha4 content) random4
    let agent_dir := a.project_dir ++ "/.claude-agent/" ++ slug ++ "-" ++ hash
    let fs := fsSet fs (agent_dir ++ "/app_spec.txt") content
    let fs := fsSet fs (agent_dir ++ "/.workspace_info.json") (workspaceInfoJson slug hash a)
    let cpPath := agent_dir ++ "/.hitl_checkpoint_log.json"
    let fs := if (fsGet fs cpPath).isSome then fs
      else fsSet fs cpPath "\x7b\"global\": []\x7d"
    let msPath := agent_dir ++
      (if a.file_only_mode then "/.file_milestone.json" else "/.gitlab_milestone.json")
    let fs := if (fsGet fs msPath).isSome then fs
      else fsSet fs msPath "\x7b\"initialized\": false\x7d"
    some (fs, agent_dir, slug, hash)

/-! ### `common/state.py`: state records and the repository reads

`common/types.py` is not under `src/` (only its importers are).
Modelled from the spec: checkpoint types form a closed enum whose members
are compared by value, and records are raw JSON objects; they are
represented here by their value strings (`"ISSUE_ENRICHMENT"`,
`"REGRESSION_APPROVAL"`, `"ISSUE_SELECTION"`, `"MR_PHASE_TRANSITION"`,
plus a catch-all of other strings), and statuses by
`"pending" | "approved" | "rejected" | "modified" | "skipped"`. -/

/-- One issue with its embedded LLM judgment, as the enrichment handler
reads it from `context["all_issues_with_judgments"]`: the dict `get`
calls make both fields optional. -/
structure IssueJudgment where
  issue_iid : Option Int := none
  decision : Option String := none
deriving DecidableEq

/-- The context fields the checkpoint handlers read. -/
structure CheckpointContext where
  all_issues_with_judgments : List IssueJudgment := []
  recommended_issue_iid : Option Int := none
deriving DecidableEq

/-- The modifications payloads produced by the built-in handlers. -/
inductive Modifications where
  | selectedIssueIids (iids : List Int)
  | selectedIssueIid (iid : Int)
deriving DecidableEq

/-- A checkpoint record, with the fields the repository and the handlers
read (`checkpoint_id`, `checkpoint_type`, `status`, `created_at`,
`completed`, `context`, and the resolution fields). -/
structure CheckpointRecord where
  checkpoint_id : String
  checkpoint_type : String
  status : String
  created_at : String
  completed : Bool := false
  context : CheckpointContext := {}
  decision : Option String := none
  notes : Option String := none
  modifications : Option Modifications := none
deriving DecidableEq

/-- The checkpoint log: scope key to ordered record list. -/
abbrev CheckpointLog := List (String × List CheckpointRecord)

/-- All records across all scopes, in scope order. -/
def flatRecords (log : CheckpointLog) : List CheckpointRecord :=
  (log.map (fun scope => scope.2)).flatten

/-- Python `max(items, key=created_at)`: the first record attaining the
maximal `created_at` (later records replace the accumulator only when
strictly greater). -/
def maxByCreatedAt (r : CheckpointRecord) (rest : List CheckpointRecord) : CheckpointRecord :=
  rest.foldl (fun acc x => if acc.created_at < x.created_at then x else acc) r

/-- `FileStateRepository.load_pending_checkpoint`: the most recent (by
`created_at`) record with `completed = false`, across all scopes. -/
def load_pending_checkpoint (log : CheckpointLog) : Option CheckpointRecord :=
  match (flatRecords log).filter (fun r => !r.completed) with
  | [] => none
  | r :: rs => some (maxByCreatedAt r rs)

/-- `FileStateRepository.is_checkpoint_type_approved`: the latest record
of the given type (by `created_at`) exists and is approved. -/
def is_checkpoint_type_approved (log : CheckpointLog) (typeValue : String) : Bool :=
  match (flatRecords log).filter (fun r => r.checkpoint_type = typeValue) with
  | [] => false
  | r :: rs => (maxByCreatedAt r rs).status = "approved"

/-- `MilestoneState` (the two free-form dicts are carried opaquely). -/
structure MilestoneState where
  initialized : Bool := false
  repository : String := ""
  milestone_id : Int := 0
  milestone_name : String := ""
  feature_branch : String := ""
  total_issues : Int := 0
  all_issues_closed : Bool := false
  milestone_closed : Bool := false
  merge_request_url : Option String := none
  enrichments : List (String × String) := []
  progress_comments : List (String × String) := []
deriving DecidableEq

/-- `WorkspaceInfo`. -/
structure WorkspaceInfo where
  spec_slug : String := ""
  spec_hash : String := ""
  spec_file : String := ""
  target_branch : String := "main"
  file_only_mode : Bool := false
  skip_mr_creation : Bool := false
  auto_accept : Bool := false
  skip_puppeteer : Bool := false
  skip_test_suite : Bool := false
  skip_regression_testing : Bool := false
deriving DecidableEq

/-- `AgentState`: the unified container (missing or malformed files load
as `none`). -/
structure AgentState where
  milestone : Option MilestoneState := none
  workspace : Option WorkspaceInfo := none
  checkpoint_log : CheckpointLog := []
deriving DecidableEq

/-- `AgentState.is_initialized`. -/
def AgentState.is_initialized (s : AgentState) : Bool :=
  match s.milestone with
  | some m => m.initialized
  | none => false

/-- `AgentState.all_issues_closed`. -/
def AgentState.all_issues_closed (s : AgentState) : Bool :=
  match s.milestone with
  | some m => m.all_issues_closed
  | none => false

/-- `AgentState.auto_accept`. -/
def AgentState.auto_accept (s : AgentState) : Bool :=
  match s.workspace with
  | some w => w.auto_accept
  | none => false

/-! ### `agent/core/orchestrator.py`: phase decision -/

/-- `SessionType` (spec-modelled enum from the missing
`common/types.py`; the three members are named in the spec glossary). -/
inductive SessionType where
  | initializer
  | coding
  | mrCreation
deriving DecidableEq

/-- `determine_session_type`.  The `repo` parameter models the guard
`state_repo and project_dir`: the orchestrator always passes both, in
which case `repo` carries the run's checkpoint log that
`is_checkpoint_type_approved` reads from disk; `none` is the defensive
default path where the approval check is skipped entirely. -/
def determine_session_type (state : AgentState) (skip_mr_creation : Bool)
    (repo : Option CheckpointLog) : SessionType :=
  if !state.is_initialized then .initializer
  else if !state.all_issues_closed then .coding
  else if skip_mr_creation then .coding
  else
    match repo with
    | some log =>
      if !is_checkpoint_type_approved log "MR_PHASE_TRANSITION" then .coding
      else .mrCreation
    | none => .mrCreation

/-! ### `agent/core/checkpoint_handlers.py` -/

/-- Python `repr` of a list of ints, as interpolated into f-strings. -/
def pyReprIntList (l : List Int) : String :=
  "[" ++ String.intercalate ", " (l.map toString) ++ "]"

/-- ASCII uppercase for `str.title()`. -/
def pyUpperChar (c : Char) : Char :=
  if 'a' ≤ c && c ≤ 'z' then Char.ofNat (c.toNat - 32) else c

/-- Is `c` an ASCII letter (a cased character here)? -/
def isAsciiAlpha (c : Char) : Bool :=
  ('a' ≤ c && c ≤ 'z') || ('A' ≤ c && c ≤ 'Z')

/-- `str.title()` on the ASCII fragment: a letter after a non-letter is
uppercased, other letters are lowercased. -/
def pyTitleChars : List Char → Bool → List Char
  | [], _ => []
  | c :: rest, prevCased =>
    if isAsciiAlpha c then
      (if prevCased then pyLowerChar c else pyUpperChar c) :: pyTitleChars rest true
    else c :: pyTitleChars rest false

/-- `str.title()`. -/
def pyTitle (s : String) : String := ⟨pyTitleChars s.toList false⟩

/-- `HandlerResult`. -/
structure HandlerResult where
  resolved : Bool
  output : String
  decision : Option String := none
  notes : Option String := none
  modifications : Option Modifications := none
deriving DecidableEq

/-- A checkpoint handler: the strategy interface (`can_handle` compares
checkpoint types, here by value string; the unused `ctx` argument of
`auto_approve` is omitted). -/
structure CheckpointHandler where
  canHandle : String → Bool
  autoApprove : CheckpointRecord → HandlerResult

/-- `IssueEnrichmentHandler.auto_approve`: the iids of the issues whose
judgment decision is `"needs_enrichment"` and whose `issue_iid` is not
`None`. -/
def issueEnrichmentSelected (cp : CheckpointRecord) : List Int :=
  cp.context.all_issues_with_judgments.filterMap
    (fun i => if i.decision = some "needs_enrichment" then i.issue_iid else none)

/-- `IssueEnrichmentHandler`. -/
def issueEnrichmentHandler : CheckpointHandler where
  canHandle t := t = "ISSUE_ENRICHMENT"
  autoApprove cp :=
    let selected := issueEnrichmentSelected cp
    { resolved := true
      output := "[HITL] Checkpoint auto-approved: Issue Enrichment\n[HITL] Modifications: " ++
        "\x7b\x27selected_issue_iids\x27: " ++ pyReprIntList selected ++ "\x7d"
      notes := some (if selected ≠ [] then
          "Auto-approved with " ++ toString selected.length ++
            " LLM-recommended issues for enrichment"
        else "Auto-approved - no issues flagged for enrichment")
      modifications := some (.selectedIssueIids selected) }

/-- `RegressionApprovalHandler`. -/
def regressionApprovalHandler : CheckpointHandler where
  canHandle t := t = "REGRESSION_APPROVAL"
  autoApprove _ :=
    { resolved := true
      output := "[HITL] Checkpoint auto-approved: Regression Approval\n[HITL] Decision: fix_now"
      decision := some "fix_now"
      notes := some "Auto-approved with fix_now action" }

/-- `IssueSelectionHandler` (`if rec_iid:` is Python truthiness, so a
missing or zero iid takes the no-recommendation branch). -/
def issueSelectionHandler : CheckpointHandler where
  canHandle t := t = "ISSUE_SELECTION"
  autoApprove cp :=
    match cp.context.recommended_issue_iid with
    | some i =>
      if i ≠ 0 then
        { resolved := true
          output := "[HITL] Checkpoint auto-approved: Issue Selection\n[HITL] Selected issue #" ++
            toString i
          notes := some ("Auto-approved recommended issue #" ++ toString i)
          modifications := some (.selectedIssueIid i) }
      else
        { resolved := true
          output := "[HITL] Checkpoint auto-approved: Issue Selection"
          notes := some "Auto-approved (no specific recommendation)" }
    | none =>
      { resolved := true
        output := "[HITL] Checkpoint auto-approved: Issue Selection"
        notes := some "Auto-approved (no specific recommendation)" }

/-- `DefaultCheckpointHandler`. -/
def defaultCheckpointHandler (handledTypes : Option (List String)) : CheckpointHandler where
  canHandle t :=
    match handledTypes with
    | none => true
    | some l => t ∈ l
  autoApprove cp :=
    { resolved := true
      output := "[HITL] Checkpoint auto-approved: " ++
        pyTitle (pyReplaceChar '_' ' ' cp.checkpoint_type)
      notes := some "Auto-approved" }

/-- The default handler set of `CheckpointDispatcher` (catch-all last). -/
def defaultHandlers : List CheckpointHandler :=
  [issueEnrichmentHandler, regressionApprovalHandler, issueSelectionHandler,
   defaultCheckpointHandler none]

/-- `CheckpointDispatcher.get_handler`: the first handler whose
`can_handle` accepts the type (`none` is the `CheckpointError` path). -/
def dispatcherGetHandler (handlers : List CheckpointHandler) (t : String) :
    Option CheckpointHandler :=
  handlers.find? (fun h => h.canHandle t)

/-- `CheckpointDispatcher.auto_approve`. -/
def dispatcherAutoApprove (handlers : List CheckpointHandler) (cp : CheckpointRecord) :
    Option HandlerResult :=
  (dispatcherGetHandler handlers cp.checkpoint_type).map (fun h => h.autoApprove cp)

/-- Modelled from the spec: `resolve_checkpoint` lives in
`agent/core/hitl.py`, which is not under `src/`.  Per the spec it
"atomically finds the pending record matching the given id/type and
sets its status, `completed=true`, `decision`, `notes`,
`modifications`, writing the log back". -/
def resolveCheckpoint (log : CheckpointLog) (cid status : String)
    (decision notes : Option String) (modifications : Option Modifications) :
    CheckpointLog :=
  log.map (fun scope =>
    (scope.1, scope.2.map (fun r =>
      if r.checkpoint_id = cid && !r.completed then
        { r with status := status, completed := true, decision := decision,
                 notes := notes, modifications := modifications }
      else r)))

/-- The checkpoint-handling step of one orchestrator cycle
(`_handle_pending_checkpoint`): no pending record, or a record no longer
pending, continues; under `auto_accept` (read from freshly reloaded
state) the dispatcher's resolution is written back with status
approved; otherwise the orchestrator blocks polling (the returned flag
is the continue/blocked outcome). -/
def handlePendingCheckpointStep (log : CheckpointLog) (autoAccept : Bool) :
    CheckpointLog × Bool :=
  match load_pending_checkpoint log with
  | none => (log, true)
  | some cp =>
    if cp.status ≠ "pending" then (log, true)
    else if autoAccept then
      match dispatcherAutoApprove defaultHandlers cp with
      | some result =>
        (resolveCheckpoint log cp.checkpoint_id "approved"
          result.decision result.notes result.modifications, true)
      | none => (log, true)
    else (log, false)

/-! ### `agent/daemon/server.py` -/

/-- `AgentConfig` of the daemon (a `TypedDict` with `total=False`: every
key optional). -/
structure DaemonAgentConfig where
  spec_file : Option String := none
  project_dir : Option String := none
  target_branch : Option String := none
  max_iterations : Option Int := none
  auto_accept : Option Bool := none
  spec_slug : Option String := none
  spec_hash : Option String := none
  file_only_mode : Option Bool := none
  skip_mr_creation : Option Bool := none
deriving DecidableEq

/-- One agent record as persisted in `daemon_state.json` by
`_save_state`. -/
structure SavedAgent where
  agent_id : String
  config : DaemonAgentConfig
  status : String
  log_file : Option String := none
  started_at : String := ""
  stopped_at : Option String := none
  exit_code : Option Int := none
deriving DecidableEq

/-- An in-memory `AgentProcess` record (the process handle is just an
optional pid here). -/
structure AgentProcessR where
  agent_id : String
  config : DaemonAgentConfig
  process : Option Nat := none
  log_file : Option String := none
  status : String
  started_at : String := ""
  stopped_at : Option String := none
  exit_code : Option Int := none
deriving DecidableEq

/-- Does `_restore_agents_from_state` drop this record?  The Python
guard is `if spec_file and not Path(spec_file).exists()`: a missing or
empty `spec_file` never drops. -/
def restoreDrops (specExists : String → Bool) (a : SavedAgent) : Bool :=
  match a.config.spec_file with
  | some f => f ≠ "" && !specExists f
  | none => false

/-- Reinstate one saved record: no process, `running` coerced to
`stopped`, everything else carried over. -/
def restoreOne (a : SavedAgent) : AgentProcessR :=
  { agent_id := a.agent_id
    config := a.config
    process := none
    log_file := a.log_file
    status := if a.status = "running" then "stopped" else a.status
    started_at := a.started_at
    stopped_at := a.stopped_at
    exit_code := a.exit_code }

/-- `_restore_agents_from_state` over the saved records in file order:
the rebuilt registry and the count of skipped records.  `specExists`
abstracts `Path(...).exists()`. -/
def restoreAgentsFromState (specExists : String → Bool) (saved : List SavedAgent) :
    List AgentProcessR × Nat :=
  saved.foldl
    (fun acc a =>
      if restoreDrops specExists a then (acc.1, acc.2 + 1)
      else (acc.1 ++ [restoreOne a], acc.2))
    ([], 0)

/-- After restoring, `_save_state` runs (persisting the cleaned state)
exactly when at least one record was skipped. -/
def restorePersistsCleanup (specExists : String → Bool) (saved : List SavedAgent) : Bool :=
  (restoreAgentsFromState specExists saved).2 ≠ 0

/-- `_build_agent_command`: the agent command line (`sys.executable`
passed in).  `if max_iterations:` is Python truthiness, so `None` and
`0` both omit the flag. -/
def buildAgentCommand (pythonExe spec_file project_dir target_branch : String)
    (max_iterations : Option Int) (file_only_mode skip_mr_creation : Bool) : List String :=
  [pythonExe, "-m", "agent.cli",
   "--spec-file", spec_file,
   "--project-dir", project_dir,
   "--target-branch", target_branch] ++
  (match max_iterations with
   | some m => if m ≠ 0 then ["--max-iterations", toString m] else []
   | none => []) ++
  (if file_only_mode then ["--file-only"] else []) ++
  (if skip_mr_creation then ["--skip-mr"] else [])

/-- The iteration-cap check of `_run_agent_loop`
(`if config.max_iterations and iteration > config.max_iterations`):
true when the loop breaks. -/
def maxIterationsBreak (max_iterations : Option Int) (iteration : Int) : Bool :=
  match max_iterations with
  | none => false
  | some m => m ≠ 0 && iteration > m

/-- The daemon's reply to a line that is not valid JSON
(`except json.JSONDecodeError` in `_handle_client`), as a key/value
object. -/
def invalidJsonReply : List (String × String) := [("error", "Invalid JSON")]

/-- The reply shape claim C5 asserts, for comparison. -/
def claimInvalidJsonReplyC5 : List (String × String) :=
  [("status", "error"), ("message", "Invalid JSON")]

/-- Per-line behaviour of `_handle_client`: a line whose JSON parse
failed (modelled as `none`, parsing being the I/O boundary) gets the
invalid-JSON reply; otherwise `_process_command` runs. -/
def daemonLineResponse {α : Type} (process : α → List (String × String)) :
    Option α → List (String × String)
  | none => invalidJsonReply
  | some req => process req

/-- The `_handle_client` loop over the newline-framed requests of one
connection (until EOF): every line is answered in order; an invalid
line does not end the loop. -/
def handleClientResponses {α : Type} (process : α → List (String × String))
    (lines : List (Option α)) : List (List (String × String)) :=
  lines.map (daemonLineResponse process)

/-! ### Shared helper lemmas -/

/-- `Char.toNat` of `Char.ofNat` for a valid code point. -/
theorem char_toNat_ofNat {n : Nat} (h : n.isValidChar) : (Char.ofNat n).toNat = n := by
  rw [Char.ofNat, dif_pos h]
  simp [Char.ofNatAux, Char.toNat, UInt32.ofNat', UInt32.toNat]

/-- One character of the slug pipeline: lowercasing, then hyphenating
spaces and underscores, then deleting characters outside `[a-z0-9-]`,
agrees with the single-pass classification. -/
theorem slug_char_step (c : Char) :
    (if slugKeep (slugRepl (pyLowerChar c)) then some (slugRepl (pyLowerChar c)) else none) =
      slugClassifyChar c := by
  by_cases h1 : ('A' ≤ c ∧ c ≤ 'Z')
  case pos =>
    have hA : (65 : Nat) ≤ c.toNat := h1.1
    have hZ : c.toNat ≤ 90 := h1.2
    have hval : (c.toNat + 32).isValidChar := Or.inl (by omega)
    have ht : (Char.ofNat (c.toNat + 32)).toNat = c.toNat + 32 := char_toNat_ofNat hval
    have hlow : pyLowerChar c = Char.ofNat (c.toNat + 32) := by
      unfold pyLowerChar; simp [h1.1, h1.2]
    have hs : Char.ofNat (c.toNat + 32) ≠ ' ' := by
      intro he
      have h2 := congrArg Char.toNat he
      rw [ht, show (' ' : Char).toNat = 32 from rfl] at h2
      omega
    have hu : Char.ofNat (c.toNat + 32) ≠ '_' := by
      intro he
      have h2 := congrArg Char.toNat he
      rw [ht, show ('_' : Char).toNat = 95 from rfl] at h2
      omega
    have hrepl : slugRepl (Char.ofNat (c.toNat + 32)) = Char.ofNat (c.toNat + 32) := by
      unfold slugRepl; simp [hs, hu]
    have hge : 'a' ≤ Char.ofNat (c.toNat + 32) := by
      show (97 : Nat) ≤ (Char.ofNat (c.toNat + 32)).toNat
      rw [ht]; omega
    have hle : Char.ofNat (c.toNat + 32) ≤ 'z' := by
      show (Char.ofNat (c.toNat + 32)).toNat ≤ (122 : Nat)
      rw [ht]; omega
    have hkeep : slugKeep (Char.ofNat (c.toNat + 32)) = true := by
      unfold slugKeep isLowerAZ; simp [hge, hle]
    rw [hlow, hrepl, hkeep, if_pos rfl]
    unfold slugClassifyChar
    simp [h1.1, h1.2]
  case neg =>
    have hlow : pyLowerChar c = c := by
      unfold pyLowerChar
      rcases not_and_or.mp h1 with h | h <;> simp [h]
    have h1f : ('A' ≤ c && c ≤ 'Z') = false := by
      rcases not_and_or.mp h1 with h | h <;> simp [h]
    rw [hlow]
    by_cases h2 : (('a' ≤ c ∧ c ≤ 'z') ∨ ('0' ≤ c ∧ c ≤ '9') ∨ c = '-')
    case pos =>
      have hs : c ≠ ' ' := by intro he; subst he; revert h2; decide
      have hu : c ≠ '_' := by intro he; subst he; revert h2; decide
      have hrepl : slugRepl c = c := by unfold slugRepl; simp [hs, hu]
      have hkeep : slugKeep c = true := by
        unfold slugKeep isLowerAZ isDigit09
        rcases h2 with ⟨ha, hb⟩ | ⟨ha, hb⟩ | ha
        · simp [ha, hb]
        · simp [ha, hb]
        · simp [ha]
      have h2t : (('a' ≤ c && c ≤ 'z') || ('0' ≤ c && c ≤ '9') || c = '-') = true := by
        rcases h2 with ⟨ha, hb⟩ | ⟨ha, hb⟩ | ha
        · simp [ha, hb]
        · simp [ha, hb]
        · simp [ha]
      rw [hrepl, hkeep, if_pos rfl]
      unfold slugClassifyChar
      rw [h1f, h2t]
      simp
    case neg =>
      have h2f : (('a' ≤ c && c ≤ 'z') || ('0' ≤ c && c ≤ '9') || c = '-') = false := by
        rcases Bool.eq_false_or_eq_true
            (('a' ≤ c && c ≤ 'z') || ('0' ≤ c && c ≤ '9') || c = '-') with h | h
        · exfalso
          apply h2
          simp only [Bool.or_eq_true, Bool.and_eq_true, decide_eq_true_eq] at h
          tauto
        · exact h
      by_cases h3 : (c = ' ' ∨ c = '_')
      case pos =>
        have hrepl : slugRepl c = '-' := by
          unfold slugRepl; rcases h3 with h | h <;> simp [h]
        have h3t : (c = ' ' || c = '_') = true := by
          rcases h3 with h | h <;> simp [h]
        rw [hrepl, show slugKeep '-' = true from rfl, if_pos rfl]
        unfold slugClassifyChar
        rw [h1f, h2f, h3t]
        simp
      case neg =>
        push_neg at h3
        have hrepl : slugRepl c = c := by unfold slugRepl; simp [h3.1, h3.2]
        have hkeep : slugKeep c = false := by
          unfold slugKeep isLowerAZ isDigit09; exact h2f
        have h3f : (c = ' ' || c = '_') = false := by simp [h3.1, h3.2]
        rw [hrepl, hkeep]
        unfold slugClassifyChar
        rw [h1f, h2f, h3f]
        simp

/-- The list form of the slug pipeline agrees with the single-pass
classification over all characters. -/
theorem slug_chars_eq (cs : List Char) :
    ((cs.map pyLowerChar).map slugRepl).filter slugKeep = cs.filterMap slugClassifyChar := by
  induction cs with
  | nil => rfl
  | cons c rest ih =>
    simp only [List.map_cons, List.filter_cons, List.filterMap_cons]
    rw [← slug_char_step c]
    cases h : slugKeep (slugRepl (pyLowerChar c)) <;>
      simp [h, ← List.map_map, ih]

/-! ### Claim theorems -/

/-- C6 (counterexample): the claim says every run of characters outside
`[a-z0-9]` becomes a single hyphen; the code only hyphenates spaces and
underscores and deletes other such characters, so `"a!b.txt"` slugs to
`"ab"` while the claim's transformation gives `"a-b"`. -/
theorem c6_slug_counterexample :
    spec_filename_to_slug "a!b.txt" = "ab" ∧ slugClaimC6 "a!b.txt" = "a-b" ∧
      spec_filename_to_slug "a!b.txt" ≠ slugClaimC6 "a!b.txt" := by
  refine ⟨by decide, by decide, by decide⟩

/-- C6 (amended): `spec_filename_to_slug` strips directories and the
final extension, and then — per character — lowercases uppercase
letters, keeps `[a-z0-9-]`, turns spaces and underscores into hyphens
and deletes every other character, finally collapsing hyphen runs,
trimming leading/trailing hyphens and returning `"default"` for an
empty result. -/
theorem c6_slug_amended (s : String) : spec_filename_to_slug s = slugAmendedSpec s := by
  simp only [spec_filename_to_slug, slugAmendedSpec]
  rw [show (pyLower (pathStem s)).toList = (pathStem s).toList.map pyLowerChar from rfl]
  rw [slug_chars_eq]

/-- C9: the Bash security hook validates nothing unless the invocation
is for tool name `"Bash"` with a non-empty command: any other tool name
returns the allow output, and an empty command string returns the allow
output without reaching any rejection rule (including the fail-safe
denial for commands with no tokens). -/
theorem c9_hook_tool_and_empty_gates :
    (∀ (pathSafe : String → Bool) (tool cmd : String),
       tool ≠ "Bash" → bashSecurityHook pathSafe tool cmd = .allow) ∧
    ∀ (pathSafe : String → Bool), bashSecurityHook pathSafe "Bash" "" = .allow := by
  constructor
  · intro pathSafe tool cmd h
    unfold bashSecurityHook
    rw [if_pos h]
  · intro pathSafe
    unfold bashSecurityHook
    rw [if_neg (by simp), if_pos rfl]

/-- C9 (witness): a concrete non-Bash invocation and the empty Bash
command are both allowed. -/
theorem c9_hook_tool_and_empty_gates_witness :
    bashSecurityHook (fun _ => true) "Edit" "rm -rf /" = .allow ∧
      bashSecurityHook (fun _ => true) "Bash" "" = .allow :=
  ⟨c9_hook_tool_and_empty_gates.1 (fun _ => true) "Edit" "rm -rf /" (by decide),
   c9_hook_tool_and_empty_gates.2 (fun _ => true)⟩

/-- C10: `max_iterations = 0` is unlimited everywhere — the
orchestrator's cap check never breaks for `0` or `None` and breaks
exactly when the value is non-zero and exceeded, and the daemon builds
the same flag-free command line for `0` as for an absent value. -/
theorem c10_zero_max_iterations_unlimited :
    (∀ it : Int, maxIterationsBreak (some 0) it = false) ∧
    (∀ it : Int, maxIterationsBreak none it = false) ∧
    (∀ (m it : Int), maxIterationsBreak (some m) it = true ↔ m ≠ 0 ∧ it > m) ∧
    (∀ (exe sf pd tb : String) (fo sm : Bool),
       buildAgentCommand exe sf pd tb (some 0) fo sm =
         buildAgentCommand exe sf pd tb none fo sm) ∧
    (∀ (exe sf pd tb : String) (fo sm : Bool),
       exe ≠ "--max-iterations" → sf ≠ "--max-iterations" →
       pd ≠ "--max-iterations" → tb ≠ "--max-iterations" →
       "--max-iterations" ∉ buildAgentCommand exe sf pd tb none fo sm) := by
  refine ⟨fun it => rfl, fun it => rfl, fun m it => ?_, fun exe sf pd tb fo sm => rfl,
    fun exe sf pd tb fo sm h1 h2 h3 h4 => ?_⟩
  · unfold maxIterationsBreak
    simp [decide_eq_true_eq]
  · unfold buildAgentCommand
    cases fo <;> cases sm <;>
      simp [h1, h2, h3, h4] <;>
      exact ⟨fun he => h1 he.symm, fun he => h2 he.symm, fun he => h3 he.symm,
        fun he => h4 he.symm⟩

/-- C10 (witness): the cap characterization and the flag omission at
concrete values. -/
theorem c10_zero_max_iterations_unlimited_witness :
    (maxIterationsBreak (some 3) 4 = true ↔ (3 : Int) ≠ 0 ∧ (4 : Int) > 3) ∧
      "--max-iterations" ∉ buildAgentCommand "python" "s.md" "/p" "main" none false false :=
  ⟨c10_zero_max_iterations_unlimited.2.2.1 3 4,
   c10_zero_max_iterations_unlimited.2.2.2.2 "python" "s.md" "/p" "main" false false
     (by decide) (by decide) (by decide) (by decide)⟩

/-- C5 (counterexample): on an invalid JSON line the daemon replies
`{"error": "Invalid JSON"}`, which is not the claimed
`{"status": "error", "message": "Invalid JSON"}` object. -/
theorem c5_invalid_json_counterexample :
    daemonLineResponse (fun r : List (String × String) => r) none = invalidJsonReply ∧
      invalidJsonReply ≠ claimInvalidJsonReplyC5 :=
  ⟨rfl, by decide⟩

/-- C5 (amended): when a line received on a daemon connection is not
valid JSON, the daemon replies with exactly `{"error": "Invalid JSON"}`
and keeps the connection open: every earlier and later line of the
connection is still answered in order. -/
theorem c5_invalid_json_keeps_connection {α : Type}
    (process : α → List (String × String)) (pre post : List (Option α)) :
    handleClientResponses process (pre ++ none :: post) =
      handleClientResponses process pre ++
        invalidJsonReply :: handleClientResponses process post := by
  unfold handleClientResponses
  simp [daemonLineResponse]

/-- The accumulator-generalized form of the daemon restore fold. -/
theorem restore_fold_acc (specExists : String → Bool) (saved : List SavedAgent) :
    ∀ acc : List AgentProcessR × Nat,
      saved.foldl
        (fun acc a =>
          if restoreDrops specExists a then (acc.1, acc.2 + 1)
          else (acc.1 ++ [restoreOne a], acc.2)) acc =
      (acc.1 ++ (saved.filter (fun a => !restoreDrops specExists a)).map restoreOne,
       acc.2 + (saved.filter (fun a => restoreDrops specExists a)).length) := by
  induction saved with
  | nil => intro acc; simp
  | cons a rest ih =>
    intro acc
    simp only [List.foldl_cons, List.filter_cons]
    cases h : restoreDrops specExists a <;>
      simp [h, ih, Nat.add_assoc, Nat.add_comm, Nat.add_left_comm]

/-- C4: on daemon start every saved record whose (non-empty) spec file
no longer exists is dropped and counted, the rest are reinstated in
order with no process and `running` coerced to `stopped`; consequently
no restored agent has status `running`, and the cleaned state is
persisted exactly when something was dropped. -/
theorem c4_daemon_restore (specExists : String → Bool) (saved : List SavedAgent) :
    restoreAgentsFromState specExists saved =
      ((saved.filter (fun a => !restoreDrops specExists a)).map restoreOne,
       (saved.filter (fun a => restoreDrops specExists a)).length) ∧
    (∀ ag ∈ (restoreAgentsFromState specExists saved).1,
       ag.status ≠ "running" ∧ ag.process = none) ∧
    (restorePersistsCleanup specExists saved = true ↔
       ∃ a ∈ saved, restoreDrops specExists a = true) := by
  have hmain : restoreAgentsFromState specExists saved =
      ((saved.filter (fun a => !restoreDrops specExists a)).map restoreOne,
       (saved.filter (fun a => restoreDrops specExists a)).length) := by
    unfold restoreAgentsFromState
    rw [restore_fold_acc]
    simp
  refine ⟨hmain, ?_, ?_⟩
  · intro ag hag
    rw [hmain] at hag
    simp only [List.mem_map, List.mem_filter] at hag
    obtain ⟨a, _, rfl⟩ := hag
    constructor
    · unfold restoreOne
      by_cases h : a.status = "running" <;> simp [h]
    · rfl
  · unfold restorePersistsCleanup
    rw [hmain]
    simp only [decide_eq_true_eq, ne_eq]
    constructor
    · intro h
      match hf : saved.filter (fun a => restoreDrops specExists a) with
      | [] => rw [hf] at h; simp at h
      | b :: bs =>
        have hb : b ∈ saved.filter (fun a => restoreDrops specExists a) := by
          rw [hf]; exact List.mem_cons_self _ _
        have hm := List.mem_filter.mp hb
        exact ⟨b, hm.1, hm.2⟩
    · rintro ⟨a, ha, hd⟩ h0
      have hmem : a ∈ saved.filter (fun a => restoreDrops specExists a) :=
        List.mem_filter.mpr ⟨ha, hd⟩
      rw [List.length_eq_zero] at h0
      rw [h0] at hmem
      simp at hmem

/-- C2: the phase decision function returns `MR_CREATION` only when the
milestone is initialized, all issues are closed, `skip_mr_creation` is
false, and the latest `MR_PHASE_TRANSITION` record in the checkpoint
log read by the repository is approved — so the orchestrator (which
always passes its repository and project directory) never reaches
`MR_CREATION` without both `all_issues_closed` and that approval. -/
theorem c2_mr_creation_gate (state : AgentState) (skip : Bool) (log : CheckpointLog)
    (h : determine_session_type state skip (some log) = .mrCreation) :
    state.is_initialized = true ∧ state.all_issues_closed = true ∧ skip = false ∧
      is_checkpoint_type_approved log "MR_PHASE_TRANSITION" = true ∧
      ∃ r rs,
        (flatRecords log).filter (fun x => x.checkpoint_type = "MR_PHASE_TRANSITION") = r :: rs ∧
        (maxByCreatedAt r rs).status = "approved" := by
  unfold determine_session_type at h
  cases h1 : state.is_initialized with
  | false => simp [h1] at h
  | true =>
  cases h2 : state.all_issues_closed with
  | false => simp [h1, h2] at h
  | true =>
  cases h3 : skip with
  | true => simp [h1, h2, h3] at h
  | false =>
  cases h4 : is_checkpoint_type_approved log "MR_PHASE_TRANSITION" with
  | false => simp [h1, h2, h3, h4] at h
  | true =>
    refine ⟨rfl, rfl, rfl, rfl, ?_⟩
    unfold is_checkpoint_type_approved at h4
    cases hf : (flatRecords log).filter (fun x => x.checkpoint_type = "MR_PHASE_TRANSITION") with
    | nil => rw [hf] at h4; simp at h4
    | cons r rs =>
      rw [hf] at h4
      simp only [decide_eq_true_eq] at h4
      exact ⟨r, rs, rfl, h4⟩

/-- A concrete initialized, all-closed state for the C2 witness. -/
def stateC2ex : AgentState :=
  { milestone := some { initialized := true, all_issues_closed := true } }

/-- A concrete log whose only `MR_PHASE_TRANSITION` record is approved,
for the C2 witness. -/
def logC2ex : CheckpointLog :=
  [("global",
    [{ checkpoint_id := "cp1", checkpoint_type := "MR_PHASE_TRANSITION",
       status := "approved", created_at := "2024-01-01T00:00:00", completed := true }])]

/-- C2 (witness): the gate theorem applied at a concrete state and log
that do reach `MR_CREATION`. -/
theorem c2_mr_creation_gate_witness :
    determine_session_type stateC2ex false (some logC2ex) = .mrCreation ∧
      (stateC2ex.is_initialized = true ∧ stateC2ex.all_issues_closed = true ∧
        false = false ∧ is_checkpoint_type_approved logC2ex "MR_PHASE_TRANSITION" = true ∧
        ∃ r rs,
          (flatRecords logC2ex).filter
              (fun x => x.checkpoint_type = "MR_PHASE_TRANSITION") = r :: rs ∧
          (maxByCreatedAt r rs).status = "approved") :=
  ⟨by decide, c2_mr_creation_gate stateC2ex false logC2ex (by decide)⟩

/-- C3 (counterexample): on the segment `pkill node evil` the claim's
rule (first non-flag token, here `node`) allows, but the code takes the
last non-flag token (`evil`) and denies. -/
theorem c3_pkill_counterexample :
    pkillClaimRuleC3 "pkill node evil" = some true ∧
      (validatePkill "pkill node evil").map Prod.fst = some false :=
  ⟨by decide, by decide⟩

/-- C3 (amended): for every pkill command segment the validator takes
the LAST non-flag, non-option token as the target; if that target
contains a space it takes the first whitespace-separated word (raising
when there is none); the segment is allowed if and only if the final
target is one of `{node, npm, npx, vite, next}`. -/
theorem c3_pkill_amended (s : String) :
    (validatePkill s).map Prod.fst = pkillAmendedRuleC3 s := by
  unfold validatePkill pkillAmendedRuleC3
  cases h : shlexSplitE s with
  | error e => simp
  | ok toks =>
    cases toks with
    | nil => simp
    | cons t0 rest =>
      simp only
      cases hl : (rest.filter (fun t => !strStartsWith t "-")).getLast? with
      | none => simp [hl]
      | some target =>
        simp only [hl]
        cases hc : strContainsChar target ' ' with
        | false =>
          by_cases mem : target ∈ allowedProcessNames <;> simp [hc, mem]
        | true =>
          cases hh : (pySplitWs target).head? with
          | none => simp [hc, hh]
          | some w =>
            by_cases mem : w ∈ allowedProcessNames <;> simp [hc, hh, mem]

/-- Python `max(..., key=created_at)` returns one of its inputs. -/
theorem maxByCreatedAt_mem (rs : List CheckpointRecord) : ∀ r, maxByCreatedAt r rs ∈ r :: rs := by
  unfold maxByCreatedAt
  induction rs with
  | nil => intro r; simp
  | cons x rest ih =>
    intro r
    simp only [List.foldl_cons]
    by_cases hlt : r.created_at < x.created_at
    · rw [if_pos hlt]
      exact List.mem_cons_of_mem _ (ih x)
    · rw [if_neg hlt]
      rcases List.mem_cons.mp (ih r) with h | h
      · exact List.mem_cons.mpr (Or.inl h)
      · exact List.mem_cons_of_mem _ (List.mem_cons_of_mem _ h)

/-- The pending record the repository returns is in the log and not
completed. -/
theorem load_pending_props (log : CheckpointLog) (cp : CheckpointRecord)
    (h : load_pending_checkpoint log = some cp) :
    cp ∈ flatRecords log ∧ cp.completed = false := by
  unfold load_pending_checkpoint at h
  cases hf : (flatRecords log).filter (fun r => !r.completed) with
  | nil => rw [hf] at h; simp at h
  | cons r rs =>
    rw [hf] at h
    simp only [Option.some.injEq] at h
    have hmem : cp ∈ r :: rs := h ▸ maxByCreatedAt_mem rs r
    rw [← hf] at hmem
    have hmf := List.mem_filter.mp hmem
    exact ⟨hmf.1, by simpa using hmf.2⟩

/-- Resolving rewrites every record in place, scope structure intact. -/
theorem flatRecords_resolve (log : CheckpointLog) (cid st : String)
    (d n : Option String) (m : Option Modifications) :
    flatRecords (resolveCheckpoint log cid st d n m) =
      (flatRecords log).map (fun r =>
        if r.checkpoint_id = cid && !r.completed then
          { r with status := st, completed := true, decision := d,
                   notes := n, modifications := m }
        else r) := by
  unfold flatRecords resolveCheckpoint
  induction log with
  | nil => simp
  | cons sc rest ih =>
    simp only [List.map_cons, List.flatten_cons, List.map_append, ih]

/-- The enrichment handler's guarded `filterMap` equals filtering on the
judgment first. -/
theorem filterMap_if_decision (l : List IssueJudgment) :
    l.filterMap (fun i => if i.decision = some "needs_enrichment" then i.issue_iid else none) =
      (l.filter (fun i => i.decision = some "needs_enrichment")).filterMap
        (fun i => i.issue_iid) := by
  induction l with
  | nil => rfl
  | cons i rest ih =>
    by_cases h : i.decision = some "needs_enrichment" <;>
      simp [List.filterMap_cons, List.filter_cons, h, ih]

/-- C8: when the pending checkpoint is an `ISSUE_ENRICHMENT` record (its
ids unique in the log) and auto-accept holds, one orchestrator cycle
continues, the resolution selects exactly the iids of the issues in
`context.all_issues_with_judgments` whose `llm_judgment.decision` is
`"needs_enrichment"`, and afterwards the record has status approved,
completed true and modifications `{selected_issue_iids: [those iids]}`.
The write-back uses `resolveCheckpoint`, modelled from the spec because
`agent/core/hitl.py` is not under `src/`. -/
theorem c8_enrichment_auto_approve (log : CheckpointLog) (cp : CheckpointRecord)
    (hload : load_pending_checkpoint log = some cp)
    (hpend : cp.status = "pending")
    (htype : cp.checkpoint_type = "ISSUE_ENRICHMENT")
    (huniq : ∀ r ∈ flatRecords log, r.checkpoint_id = cp.checkpoint_id → r = cp) :
    (handlePendingCheckpointStep log true).2 = true ∧
    issueEnrichmentSelected cp =
      (cp.context.all_issues_with_judgments.filter
          (fun i => i.decision = some "needs_enrichment")).filterMap (fun i => i.issue_iid) ∧
    ∀ r ∈ flatRecords (handlePendingCheckpointStep log true).1,
      r.checkpoint_id = cp.checkpoint_id →
        r.status = "approved" ∧ r.completed = true ∧
        r.modifications = some (.selectedIssueIids (issueEnrichmentSelected cp)) := by
  have hcomp : cp.completed = false := (load_pending_props log cp hload).2
  have hdisp : dispatcherAutoApprove defaultHandlers cp =
      some (issueEnrichmentHandler.autoApprove cp) := by
    unfold dispatcherAutoApprove dispatcherGetHandler defaultHandlers
    simp [issueEnrichmentHandler, htype]
  have hstep : handlePendingCheckpointStep log true =
      (resolveCheckpoint log cp.checkpoint_id "approved"
        (issueEnrichmentHandler.autoApprove cp).decision
        (issueEnrichmentHandler.autoApprove cp).notes
        (issueEnrichmentHandler.autoApprove cp).modifications, true) := by
    unfold handlePendingCheckpointStep
    rw [hload]
    simp [hpend, hdisp]
  refine ⟨by rw [hstep], ?_, ?_⟩
  · unfold issueEnrichmentSelected
    exact filterMap_if_decision _
  · intro r hr hid
    rw [hstep] at hr
    simp only at hr
    rw [flatRecords_resolve] at hr
    rcases List.mem_map.mp hr with ⟨r0, hr0, rfl⟩
    by_cases hcond : (r0.checkpoint_id = cp.checkpoint_id ∧ r0.completed = false)
    · have hb : (r0.checkpoint_id = cp.checkpoint_id && !r0.completed) = true := by
        simp [hcond.1, hcond.2]
      rw [if_pos hb]
      refine ⟨rfl, rfl, ?_⟩
      show (issueEnrichmentHandler.autoApprove cp).modifications = _
      rfl
    · exfalso
      have hidr0 : r0.checkpoint_id = cp.checkpoint_id := by
        by_cases hc : (r0.checkpoint_id = cp.checkpoint_id && !r0.completed) = true
        · rw [if_pos hc] at hid; simpa using hid
        · rw [if_neg hc] at hid; exact hid
      have heq := huniq r0 hr0 hidr0
      subst heq
      exact hcond ⟨hidr0, hcomp⟩

/-- The pending enrichment record of scenario S7, for the C8 witness. -/
def cpC8ex : CheckpointRecord :=
  { checkpoint_id := "cp-enrich-1", checkpoint_type := "ISSUE_ENRICHMENT",
    status := "pending", created_at := "2024-01-02T00:00:00", completed := false,
    context := { all_issues_with_judgments :=
      [{ issue_iid := some 1, decision := some "needs_enrichment" },
       { issue_iid := some 2, decision := some "ok" }] } }

/-- The one-record log of scenario S7, for the C8 witness. -/
def logC8ex : CheckpointLog := [("global", [cpC8ex])]

/-- C8 (witness): scenario S7 — issue 1 needs enrichment, issue 2 is
fine, auto-accept on; after the cycle the record is approved, completed,
with `selected_issue_iids = [1]`. -/
theorem c8_enrichment_auto_approve_witness :
    load_pending_checkpoint logC8ex = some cpC8ex ∧
    issueEnrichmentSelected cpC8ex = [1] ∧
    (handlePendingCheckpointStep logC8ex true).2 = true ∧
    ∀ r ∈ flatRecords (handlePendingCheckpointStep logC8ex true).1,
      r.checkpoint_id = cpC8ex.checkpoint_id →
        r.status = "approved" ∧ r.completed = true ∧
        r.modifications = some (.selectedIssueIids (issueEnrichmentSelected cpC8ex)) := by
  have h := c8_enrichment_auto_approve logC8ex cpC8ex (by decide) (by decide) (by decide)
    (by decide)
  exact ⟨by decide, by decide, h.1, h.2.2⟩

/-! ### File-system lemmas for the workspace initializer -/

theorem str_append_ne (a : String) {x y : String} (h : x ≠ y) : a ++ x ≠ a ++ y := by
  cases a with | mk da =>
  cases x with | mk dx =>
  cases y with | mk dy =>
  intro he
  apply h
  have hd : da ++ dx = da ++ dy := congrArg String.data he
  exact congrArg String.mk (List.append_cancel_left hd)

theorem fsGet_fsSet_ne (fs : FS) (p v : String) {q : String} (h : q ≠ p) :
    fsGet (fsSet fs p v) q = fsGet fs q := by
  unfold fsSet fsGet
  by_cases hp : fs.any (fun kv => kv.1 = p)
  · rw [if_pos hp]
    clear hp
    induction fs with
    | nil => rfl
    | cons kv rest ih =>
      simp only [List.map_cons]
      by_cases hk : kv.1 = p
      · rw [if_pos hk]
        rw [List.find?_cons, List.find?_cons]
        have h1 : (decide ((p, v).1 = q)) = false := by
          simp only [decide_eq_false_iff_not]
          exact Ne.symm h
        have h2 : (decide (kv.1 = q)) = false := by
          simp only [decide_eq_false_iff_not]
          intro he; exact h (by rw [← he, hk])
        rw [h1, h2]
        exact ih
      · rw [if_neg hk]
        rw [List.find?_cons, List.find?_cons]
        cases hd : decide (kv.1 = q)
        · exact ih
        · rfl
  · rw [if_neg hp]
    rw [List.find?_append]
    have hsing : List.find? (fun kv => decide (kv.1 = q)) [(p, v)] = none := by
      simp only [List.find?_cons, List.find?_nil]
      have : (decide ((p, v).1 = q)) = false := by
        simp only [decide_eq_false_iff_not]
        exact Ne.symm h
      rw [this]
    rw [hsing]
    cases List.find? (fun kv => decide (kv.1 = q)) fs <;> rfl

theorem fsGet_fsSet_self (fs : FS) (p v : String) :
    fsGet (fsSet fs p v) p = some v := by
  unfold fsSet fsGet
  by_cases hp : fs.any (fun kv => kv.1 = p)
  · rw [if_pos hp]
    induction fs with
    | nil => simp at hp
    | cons kv rest ih =>
      simp only [List.map_cons]
      by_cases hk : kv.1 = p
      · rw [if_pos hk, List.find?_cons]
        simp
      · rw [if_neg hk, List.find?_cons]
        have hd : (decide (kv.1 = p)) = false := by simp [hk]
        rw [hd]
        apply ih
        simp only [List.any_cons] at hp
        rcases Bool.or_eq_true_iff.mp hp with hx | hx
        · exact absurd (by simpa using hx) hk
        · exact hx
  · rw [if_neg hp]
    rw [List.find?_append]
    have hnone : List.find? (fun kv => decide (kv.1 = p)) fs = none := by
      rw [List.find?_eq_none]
      intro x hx
      simp only [decide_eq_true_eq]
      intro he
      apply hp
      simp only [List.any_eq_true]
      exact ⟨x, hx, by simp [he]⟩
    rw [hnone]
    simp

theorem fsSet_bound_self (fs : FS) (p v : String) :
    ∀ kv ∈ fsSet fs p v, kv.1 = p → kv.2 = v := by
  unfold fsSet
  intro kv hkv hkp
  by_cases hp : fs.any (fun kv => kv.1 = p)
  · rw [if_pos hp] at hkv
    rcases List.mem_map.mp hkv with ⟨kv0, _, rfl⟩
    by_cases hk : kv0.1 = p
    · simp only [if_pos hk]
    · rw [if_neg hk] at hkp ⊢
      exact absurd hkp hk
  · rw [if_neg hp] at hkv
    rcases List.mem_append.mp hkv with hin | hin
    · exfalso
      apply hp
      simp only [List.any_eq_true]
      exact ⟨kv, hin, by simp [hkp]⟩
    · simp only [List.mem_singleton] at hin
      rw [hin]

theorem fsSet_bound_preserve (fs : FS) (p v q w : String) (hq : q ≠ p)
    (hb : ∀ kv ∈ fs, kv.1 = p → kv.2 = v) :
    ∀ kv ∈ fsSet fs q w, kv.1 = p → kv.2 = v := by
  unfold fsSet
  intro kv hkv hkp
  by_cases hp : fs.any (fun kv => kv.1 = q)
  · rw [if_pos hp] at hkv
    rcases List.mem_map.mp hkv with ⟨kv0, hkv0, rfl⟩
    by_cases hk : kv0.1 = q
    · rw [if_pos hk] at hkp ⊢
      exact absurd hkp hq
    · rw [if_neg hk] at hkp ⊢
      exact hb kv0 hkv0 hkp
  · rw [if_neg hp] at hkv
    rcases List.mem_append.mp hkv with hin | hin
    · exact hb kv hin hkp
    · simp only [List.mem_singleton] at hin
      rw [hin] at hkp
      exact absurd hkp hq

theorem map_id_of_bound (p v : String) :
    ∀ fs : FS, (∀ kv ∈ fs, kv.1 = p → kv.2 = v) →
      fs.map (fun kv => if kv.1 = p then (p, v) else kv) = fs := by
  intro fs
  induction fs with
  | nil => intro _; rfl
  | cons kv rest ih =>
    intro hb
    simp only [List.map_cons]
    congr 1
    · by_cases hk : kv.1 = p
      · rw [if_pos hk]
        have h2 := hb kv (List.mem_cons_self _ _) hk
        cases kv
        simp_all
      · rw [if_neg hk]
    · exact ih (fun x hx => hb x (List.mem_cons_of_mem _ hx))

theorem fsSet_id (fs : FS) (p v : String)
    (hb : ∀ kv ∈ fs, kv.1 = p → kv.2 = v)
    (hp : fs.any (fun kv => kv.1 = p) = true) :
    fsSet fs p v = fs := by
  unfold fsSet
  rw [if_pos hp]
  exact map_id_of_bound p v fs hb

theorem fsGet_isSome_any (fs : FS) (p : String) :
    (fsGet fs p).isSome = fs.any (fun kv => kv.1 = p) := by
  unfold fsGet
  rcases hf : List.find? (fun kv => decide (kv.1 = p)) fs with _ | kv
  · have hf2 := hf
    rw [List.find?_eq_none] at hf2
    have hany : fs.any (fun kv => kv.1 = p) = false := by
      rw [List.any_eq_false]
      intro x hx
      exact hf2 x hx
    rw [hf, hany]
    rfl
  · have hmem := List.mem_of_find?_eq_some hf
    have hpred := List.find?_some hf
    have hany : fs.any (fun kv => kv.1 = p) = true := by
      rw [List.any_eq_true]
      exact ⟨kv, hmem, hpred⟩
    rw [hf, hany]
    rfl

/-- Arguments for the C7 theorems: a normal call with an explicit hash
for the witness, the same without a hash for the counterexample. -/
def argsC7w : InitArgs :=
  { project_dir := "/p", spec_source := "spec.md", target_branch := "main",
    spec_hash := some "HASH1234" }

/-- A one-file starting state for the C7 theorems. -/
def fsC7w : FS := [("spec.md", "hello")]

/-- A fixed digest oracle for the C7 theorems. -/
def sha4C7w : String → List Nat := fun _ => [0, 0, 0, 0]

/-- C7 (counterexample): two calls of the Workspace Initializer with
identical arguments (no `spec_hash` supplied) draw fresh random bytes,
so they can return different directories, hashes and on-disk states —
the claimed identical outcome fails. -/
theorem c7_workspace_counterexample :
    (initialize_agent_workspace sha4C7w [0, 0, 0, 0] fsC7w
        { project_dir := "/p", spec_source := "spec.md", target_branch := "main" }).map
        (fun x => x.2) =
      some ("/p/.claude-agent/spec-00000000", "spec", "00000000") ∧
    (initialize_agent_workspace sha4C7w [0, 0, 0, 1] fsC7w
        { project_dir := "/p", spec_source := "spec.md", target_branch := "main" }).map
        (fun x => x.2) =
      some ("/p/.claude-agent/spec-00000001", "spec", "00000001") ∧
    (initialize_agent_workspace sha4C7w [0, 0, 0, 0] fsC7w
        { project_dir := "/p", spec_source := "spec.md", target_branch := "main" }) ≠
      (initialize_agent_workspace sha4C7w [0, 0, 0, 1] fsC7w
        { project_dir := "/p", spec_source := "spec.md", target_branch := "main" }) :=
  ⟨by decide, by decide, by decide⟩

/-- C7 (amended): when `spec_hash` is supplied in the arguments, a
second call of the Workspace Initializer with the same arguments (any
fresh randomness) leaves the on-disk state of the first call —
including the byte-identical workspace info file — unchanged and
returns the same `(dir, slug, hash)` triple, provided the spec source
is not itself one of the run-directory files. -/
theorem c7_workspace_idempotent_amended (sha4 : String → List Nat) (r1 r2 : List Nat) (fs fs2 : FS)
    (a : InitArgs) (hh dir slug hash : String)
    (hhash : a.spec_hash = some hh)
    (hret : initialize_agent_workspace sha4 r1 fs a = some (fs2, dir, slug, hash))
    (hs1 : a.spec_source ≠ dir ++ "/app_spec.txt")
    (hs2 : a.spec_source ≠ dir ++ "/.workspace_info.json")
    (hs3 : a.spec_source ≠ dir ++ "/.hitl_checkpoint_log.json")
    (hs4 : a.spec_source ≠ dir ++ "/.file_milestone.json")
    (hs5 : a.spec_source ≠ dir ++ "/.gitlab_milestone.json") :
    initialize_agent_workspace sha4 r2 fs2 a = some (fs2, dir, slug, hash) := by
  unfold initialize_agent_workspace at hret ⊢
  rw [hhash] at hret ⊢
  cases hsrc : fsGet fs a.spec_source with
  | none => rw [hsrc] at hret; exact absurd hret (by simp)
  | some content =>
  rw [hsrc] at hret
  simp only [Option.some.injEq, Prod.mk.injEq] at hret
  obtain ⟨hfs2, hdir, hslug, hhash2⟩ := hret
  subst hfs2
  subst hdir
  subst hslug
  subst hhash2
  set S := (match a.spec_slug with
    | some s => s
    | none => spec_filename_to_slug a.spec_source) with hS
  set D := a.project_dir ++ "/.claude-agent/" ++ S ++ "-" ++ hh with hD
  set appP := D ++ "/app_spec.txt" with happ
  set wsP := D ++ "/.workspace_info.json" with hws
  set cpP := D ++ "/.hitl_checkpoint_log.json" with hcpp
  set msP := D ++ (if a.file_only_mode then "/.file_milestone.json"
    else "/.gitlab_milestone.json") with hmsp
  set JW := workspaceInfoJson S hh a with hjw
  -- path distinctness
  have n_ws_app : wsP ≠ appP := str_append_ne D (by decide)
  have n_app_ws : appP ≠ wsP := str_append_ne D (by decide)
  have n_cp_app : cpP ≠ appP := str_append_ne D (by decide)
  have n_app_cp : appP ≠ cpP := str_append_ne D (by decide)
  have n_cp_ws : cpP ≠ wsP := str_append_ne D (by decide)
  have n_ws_cp : wsP ≠ cpP := str_append_ne D (by decide)
  have n_ms_app : msP ≠ appP := by
    rw [hmsp, happ]; cases a.file_only_mode <;> exact str_append_ne D (by decide)
  have n_ms_ws : msP ≠ wsP := by
    rw [hmsp, hws]; cases a.file_only_mode <;> exact str_append_ne D (by decide)
  have n_cp_ms : cpP ≠ msP := by
    rw [hmsp, hcpp]; cases a.file_only_mode <;> exact str_append_ne D (by decide)
  have n_src_ms : a.spec_source ≠ msP := by
    rw [hmsp]
    cases hfom : a.file_only_mode
    · simpa using hs5
    · simpa using hs4
  -- name the four intermediate file systems of the first call
  set FA := fsSet fs appP content with hFA
  set FB := fsSet FA wsP JW with hFB
  set FC := (if (fsGet FB cpP).isSome = true then FB
    else fsSet FB cpP "\x7b\"global\": []\x7d") with hFC
  set FD := (if (fsGet FC msP).isSome = true then FC
    else fsSet FC msP "\x7b\"initialized\": false\x7d") with hFD
  -- the spec source is untouched by the four writes
  have gA_src : fsGet FA a.spec_source = some content := by
    rw [hFA, fsGet_fsSet_ne fs appP content hs1]; exact hsrc
  have gB_src : fsGet FB a.spec_source = some content := by
    rw [hFB, fsGet_fsSet_ne FA wsP JW hs2]; exact gA_src
  have gC_src : fsGet FC a.spec_source = some content := by
    rw [hFC]
    by_cases hcp : (fsGet FB cpP).isSome = true
    · rw [if_pos hcp]; exact gB_src
    · rw [if_neg hcp, fsGet_fsSet_ne FB cpP _ hs3]; exact gB_src
  have gD_src : fsGet FD a.spec_source = some content := by
    rw [hFD]
    by_cases hms : (fsGet FC msP).isSome = true
    · rw [if_pos hms]; exact gC_src
    · rw [if_neg hms, fsGet_fsSet_ne FC msP _ n_src_ms]; exact gC_src
  rw [gD_src]
  dsimp only
  -- app_spec.txt is bound to `content` everywhere in FD
  have bA : ∀ kv ∈ FA, kv.1 = appP → kv.2 = content := by
    rw [hFA]; exact fsSet_bound_self fs appP content
  have bB : ∀ kv ∈ FB, kv.1 = appP → kv.2 = content := by
    rw [hFB]; exact fsSet_bound_preserve FA appP content wsP JW n_ws_app bA
  have bC : ∀ kv ∈ FC, kv.1 = appP → kv.2 = content := by
    rw [hFC]
    by_cases hcp : (fsGet FB cpP).isSome = true
    · rw [if_pos hcp]; exact bB
    · rw [if_neg hcp]
      exact fsSet_bound_preserve FB appP content cpP _ n_cp_app bB
  have bD : ∀ kv ∈ FD, kv.1 = appP → kv.2 = content := by
    rw [hFD]
    by_cases hms : (fsGet FC msP).isSome = true
    · rw [if_pos hms]; exact bC
    · rw [if_neg hms]
      exact fsSet_bound_preserve FC appP content msP _ n_ms_app bC
  have gA_app : fsGet FA appP = some content := by
    rw [hFA]; exact fsGet_fsSet_self fs appP content
  have gB_app : fsGet FB appP = some content := by
    rw [hFB, fsGet_fsSet_ne FA wsP JW n_app_ws]; exact gA_app
  have gC_app : fsGet FC appP = some content := by
    rw [hFC]
    by_cases hcp : (fsGet FB cpP).isSome = true
    · rw [if_pos hcp]; exact gB_app
    · rw [if_neg hcp, fsGet_fsSet_ne FB cpP _ n_app_cp]; exact gB_app
  have gD_app : fsGet FD appP = some content := by
    rw [hFD]
    by_cases hms : (fsGet FC msP).isSome = true
    · rw [if_pos hms]; exact gC_app
    · rw [if_neg hms, fsGet_fsSet_ne FC msP _ (Ne.symm n_ms_app)]; exact gC_app
  have e1 : fsSet FD appP content = FD := by
    apply fsSet_id FD appP content bD
    rw [← fsGet_isSome_any, gD_app]; rfl
  rw [e1]
  -- workspace info is bound to JW everywhere in FD
  have bwB : ∀ kv ∈ FB, kv.1 = wsP → kv.2 = JW := by
    rw [hFB]; exact fsSet_bound_self FA wsP JW
  have bwC : ∀ kv ∈ FC, kv.1 = wsP → kv.2 = JW := by
    rw [hFC]
    by_cases hcp : (fsGet FB cpP).isSome = true
    · rw [if_pos hcp]; exact bwB
    · rw [if_neg hcp]
      exact fsSet_bound_preserve FB wsP JW cpP _ n_cp_ws bwB
  have bwD : ∀ kv ∈ FD, kv.1 = wsP → kv.2 = JW := by
    rw [hFD]
    by_cases hms : (fsGet FC msP).isSome = true
    · rw [if_pos hms]; exact bwC
    · rw [if_neg hms]
      exact fsSet_bound_preserve FC wsP JW msP _ n_ms_ws bwC
  have gB_ws : fsGet FB wsP = some JW := by
    rw [hFB]; exact fsGet_fsSet_self FA wsP JW
  have gC_ws : fsGet FC wsP = some JW := by
    rw [hFC]
    by_cases hcp : (fsGet FB cpP).isSome = true
    · rw [if_pos hcp]; exact gB_ws
    · rw [if_neg hcp, fsGet_fsSet_ne FB cpP _ n_ws_cp]; exact gB_ws
  have gD_ws : fsGet FD wsP = some JW := by
    rw [hFD]
    by_cases hms : (fsGet FC msP).isSome = true
    · rw [if_pos hms]; exact gC_ws
    · rw [if_neg hms, fsGet_fsSet_ne FC msP _ (Ne.symm n_ms_ws)]; exact gC_ws
  have e2 : fsSet FD wsP JW = FD := by
    apply fsSet_id FD wsP JW bwD
    rw [← fsGet_isSome_any, gD_ws]; rfl
  rw [e2]
  -- the checkpoint log exists in FD
  have hCcp : (fsGet FC cpP).isSome = true := by
    rw [hFC]
    by_cases hcp : (fsGet FB cpP).isSome = true
    · rw [if_pos hcp]; exact hcp
    · rw [if_neg hcp, fsGet_fsSet_self]; rfl
  have hDcp : (fsGet FD cpP).isSome = true := by
    rw [hFD]
    by_cases hms : (fsGet FC msP).isSome = true
    · rw [if_pos hms]; exact hCcp
    · rw [if_neg hms, fsGet_fsSet_ne FC msP _ n_cp_ms]; exact hCcp
  rw [if_pos hDcp]
  -- the milestone file exists in FD
  have hDms : (fsGet FD msP).isSome = true := by
    rw [hFD]
    by_cases hms : (fsGet FC msP).isSome = true
    · rw [if_pos hms]; exact hms
    · rw [if_neg hms, fsGet_fsSet_self]; rfl
  rw [if_pos hDms]

/-- The on-disk state after the first C7 witness call. -/
def fs2C7w : FS :=
  [("spec.md", "hello"),
   ("/p/.claude-agent/spec-HASH1234/app_spec.txt", "hello"),
   ("/p/.claude-agent/spec-HASH1234/.workspace_info.json",
     "\x7b\n  \"spec_slug\": \"spec\",\n  \"spec_hash\": \"HASH1234\",\n  \"target_branch\": \"main\",\n  \"feature_branch\": \"feature/spec-HASH1234\",\n  \"spec_file\": \"app_spec.txt\",\n  \"initialized\": true,\n  \"auto_accept\": false,\n  \"file_only_mode\": false,\n  \"skip_mr_creation\": false,\n  \"skip_puppeteer\": false,\n  \"skip_test_suite\": false,\n  \"skip_regression_testing\": false\n\x7d"),
   ("/p/.claude-agent/spec-HASH1234/.hitl_checkpoint_log.json", "\x7b\"global\": []\x7d"),
   ("/p/.claude-agent/spec-HASH1234/.gitlab_milestone.json", "\x7b\"initialized\": false\x7d")]

/-- C7 (witness): with the hash supplied, a concrete first call and a
second call with different randomness return the identical state and
triple. -/
theorem c7_workspace_idempotent_witness :
    initialize_agent_workspace sha4C7w [0, 0, 0, 0] fsC7w argsC7w =
      some (fs2C7w, "/p/.claude-agent/spec-HASH1234", "spec", "HASH1234") ∧
    initialize_agent_workspace sha4C7w [1, 2, 3, 4] fs2C7w argsC7w =
      some (fs2C7w, "/p/.claude-agent/spec-HASH1234", "spec", "HASH1234") :=
  ⟨by decide,
   c7_workspace_idempotent_amended sha4C7w [0, 0, 0, 0] [1, 2, 3, 4] fsC7w fs2C7w argsC7w
     "HASH1234" "/p/.claude-agent/spec-HASH1234" "spec" "HASH1234" rfl (by decide)
     (by decide) (by decide) (by decide) (by decide) (by decide)⟩

/-! ### Lemmas and theorems for the security-filter allow property -/

/-- Every extracted command is the base name of one of the segment's
tokens. -/
theorem extractFromTokens_mem :
    ∀ (toks : List String) (e : Bool) (c : String),
      c ∈ extractFromTokens toks e → ∃ t ∈ toks, c = osBasename t := by
  intro toks
  induction toks with
  | nil => intro e c h; simp [extractFromTokens] at h
  | cons t ts ih =>
    intro e c h
    unfold extractFromTokens at h
    split_ifs at h with h1 h2 h3 h4 h5
    · obtain ⟨u, hu, he'⟩ := ih true c h
      exact ⟨u, List.mem_cons_of_mem _ hu, he'⟩
    · obtain ⟨u, hu, he'⟩ := ih e c h
      exact ⟨u, List.mem_cons_of_mem _ hu, he'⟩
    · obtain ⟨u, hu, he'⟩ := ih e c h
      exact ⟨u, List.mem_cons_of_mem _ hu, he'⟩
    · obtain ⟨u, hu, he'⟩ := ih e c h
      exact ⟨u, List.mem_cons_of_mem _ hu, he'⟩
    · rcases List.mem_cons.mp h with he' | hrec
      · exact ⟨t, List.mem_cons_self _ _, he'⟩
      · obtain ⟨u, hu, he'⟩ := ih false c hrec
        exact ⟨u, List.mem_cons_of_mem _ hu, he'⟩
    · obtain ⟨u, hu, he'⟩ := ih e c h
      exact ⟨u, List.mem_cons_of_mem _ hu, he'⟩

/-- Every command collected across segments comes from a successfully
parsed segment's token list. -/
theorem extractCommandsAux_mem :
    ∀ (segs : List String) (l : List String), extractCommandsAux segs = some l →
      ∀ c ∈ l, ∃ seg ∈ segs, ∃ toks, safeShlexSplit seg = some toks ∧
        c ∈ extractFromTokens toks true := by
  intro segs
  induction segs with
  | nil =>
    intro l h c hc
    unfold extractCommandsAux at h
    simp only [Option.some.injEq] at h
    subst h
    simp at hc
  | cons seg rest ih =>
    intro l h c hc
    unfold extractCommandsAux at h
    cases hs : safeShlexSplit seg with
    | none => rw [hs] at h; simp at h
    | some toks =>
      rw [hs] at h
      cases hr : extractCommandsAux rest with
      | none => rw [hr] at h; simp at h
      | some l2 =>
        rw [hr] at h
        simp only [Option.map_some', Option.some.injEq] at h
        subst h
        rcases List.mem_append.mp hc with h1 | h2
        · exact ⟨seg, List.mem_cons_self _ _, toks, hs, h1⟩
        · obtain ⟨s2, hs2, toks2, ha, hb⟩ := ih l2 hr c h2
          exact ⟨s2, List.mem_cons_of_mem _ hs2, toks2, ha, hb⟩

/-- C1 (amended): for every NON-EMPTY command string the Bash security
filter allows, the POSIX shell parse the filter performs contains at
least one token whose base name is in the frozen allow-list, and the
command contains no occurrence of a command or process substitution
opener. -/
theorem c1_allowed_has_token (pathSafe : String → Bool) (cmd : String)
    (hallow : bashSecurityHook pathSafe "Bash" cmd = .allow) (hne : cmd ≠ "") :
    (strContainsSub cmd "$(" = false ∧ strContainsSub cmd "\x60" = false ∧
      strContainsSub cmd "<(" = false) ∧
    ∃ t ∈ shellParseTokens cmd, osBasename t ∈ ALLOWED_COMMANDS := by
  unfold bashSecurityHook at hallow
  rw [if_neg (by simp), if_neg hne] at hallow
  have h3 : (strContainsChar cmd (Char.ofNat 0) || decide (cmd.length > 10000)) = false := by
    rcases Bool.eq_false_or_eq_true
        (strContainsChar cmd (Char.ofNat 0) || decide (cmd.length > 10000)) with hb | hb
    · rw [if_pos hb] at hallow; exact absurd hallow (by simp)
    · exact hb
  rw [if_neg (by simp [h3])] at hallow
  have h4 : (strContainsSub cmd "$(" || strContainsSub cmd "\x60" ||
      strContainsSub cmd "<(") = false := by
    rcases Bool.eq_false_or_eq_true (strContainsSub cmd "$(" || strContainsSub cmd "\x60" ||
      strContainsSub cmd "<(") with hb | hb
    · rw [if_pos hb] at hallow; exact absurd hallow (by simp)
    · exact hb
  rw [if_neg (by simp [h4])] at hallow
  have hsubs : strContainsSub cmd "$(" = false ∧ strContainsSub cmd "\x60" = false ∧
      strContainsSub cmd "<(" = false := by
    rcases Bool.eq_false_or_eq_true (strContainsSub cmd "$(") with hb1 | hb1
    · rw [hb1] at h4; simp at h4
    · rcases Bool.eq_false_or_eq_true (strContainsSub cmd "\x60") with hb2 | hb2
      · rw [hb2] at h4; simp at h4
      · rcases Bool.eq_false_or_eq_true (strContainsSub cmd "<(") with hb3 | hb3
        · rw [hb3] at h4; simp at h4
        · exact ⟨hb1, hb2, hb3⟩
  refine ⟨hsubs, ?_⟩
  simp only at hallow
  cases hcs : extractCommands cmd with
  | nil => rw [hcs] at hallow; rw [if_pos rfl] at hallow; exact absurd hallow (by simp)
  | cons c0 cs =>
    rw [hcs] at hallow
    rw [if_neg (by simp)] at hallow
    have hc0 : c0 ∈ ALLOWED_COMMANDS := by
      unfold validateCommands at hallow
      by_cases hm : c0 ∉ ALLOWED_COMMANDS
      · rw [if_pos hm] at hallow; exact absurd hallow (by simp)
      · push_neg at hm; exact hm
    have hc0mem : c0 ∈ extractCommands cmd := by
      rw [hcs]; exact List.mem_cons_self _ _
    unfold extractCommands at hc0mem
    cases haux : extractCommandsAux (stripSegments (semiSplit cmd)) with
    | none => rw [haux] at hc0mem; simp at hc0mem
    | some l =>
      rw [haux] at hc0mem
      simp only [Option.getD_some] at hc0mem
      obtain ⟨seg, hseg, toks, htoks, hcin⟩ :=
        extractCommandsAux_mem (stripSegments (semiSplit cmd)) l haux c0 hc0mem
      obtain ⟨t, ht, hbase⟩ := extractFromTokens_mem toks true c0 hcin
      refine ⟨t, ?_, ?_⟩
      · unfold shellParseTokens
        apply List.mem_flatten.mpr
        refine ⟨toks, ?_, ht⟩
        apply List.mem_map.mpr
        exact ⟨seg, hseg, by rw [htoks]; rfl⟩
      · rw [← hbase]; exact hc0

/-- C1 (counterexample): the empty command string is allowed (claim C9's
gate) yet its shell parse has no tokens at all, so the claim as stated
over every allowed command fails at `""`. -/
theorem c1_empty_command_counterexample :
    bashSecurityHook (fun _ => true) "Bash" "" = .allow ∧ shellParseTokens "" = [] :=
  ⟨rfl, by decide⟩

/-- C1 (witness): the amended theorem applied to the allowed command
`"ls -la"`. -/
theorem c1_allowed_has_token_witness :
    bashSecurityHook (fun _ => false) "Bash" "ls -la" = .allow ∧ "ls -la" ≠ "" ∧
      ((strContainsSub "ls -la" "$(" = false ∧ strContainsSub "ls -la" "\x60" = false ∧
        strContainsSub "ls -la" "<(" = false) ∧
       ∃ t ∈ shellParseTokens "ls -la", osBasename t ∈ ALLOWED_COMMANDS) :=
  ⟨by decide, by decide,
   c1_allowed_has_token (fun _ => false) "ls -la" (by decide) (by decide)⟩

end Harness
